import Mathlib

/-!
Verification of the upwork-jobs-scraper core against its specification.

The Python sources under `src/` are shallowly embedded as Lean functions:

* `src/extractors/utils_text.py` — the pure text normalizers
  (`clean_text`, `parse_created_at`, `parse_client_reviews`,
  `parse_job_type`, `parse_skills_list`, `parse_budget`,
  `parse_client_spent`);
* `src/extractors/upwork_parser.py` — `_build_url`, `_parse_single_job`,
  `parse_jobs_from_html` and `scrape` of `UpworkJobScraper`;
* `src/outputs/exporter.py` — `export` and `_collect_fieldnames` of
  `DataExporter`.

Modelling conventions: strings are processed as `List Char`; Python's
regex class `\s` and `str.strip()` are modelled over the ASCII whitespace
characters; `str.lower()` is modelled as ASCII lowercasing; the ambient
clock `datetime.now(timezone.utc)` is an `Int` parameter counting seconds,
and an ISO-8601 rendering of an instant is modelled by the abstract
constructor `CreatedAt.timestamp`; the external `dateutil.parser.parse`
collaborator is an oracle parameter `String → Option Int` (`none` models a
raised parse exception); markup cards are the record of the selector-query
results that `_parse_single_job` reads off a BeautifulSoup fragment.
-/

/-- Character class of Python's regex `\s` and `str.strip()` over ASCII:
space, tab, newline, carriage return, vertical tab and form feed. -/
def isWsChar (c : Char) : Bool :=
  c = ' ' || c = '\t' || c = '\n' || c = '\x0d' || c = '\x0b' || c = '\x0c'

/-- One pass of `re.sub(r"\s+", " ", text)`: every maximal run of
whitespace characters is replaced by a single space.  The flag records
whether the previous character belonged to a whitespace run. -/
def collapseWsAux : List Char → Bool → List Char
  | [], _ => []
  | c :: cs, prevWs =>
    if isWsChar c then
      if prevWs then collapseWsAux cs true
      else (' ') :: collapseWsAux cs true
    else c :: collapseWsAux cs false

/-- Remove the trailing characters satisfying `p` (the right half of
Python's `str.strip`). -/
def rstripP (p : Char → Bool) : List Char → List Char
  | [] => []
  | c :: cs =>
    match rstripP p cs with
    | [] => if p c then [] else [c]
    | r => c :: r

/-- Python `str.strip(chars)`: drop characters satisfying `p` from both
ends. -/
def stripP (p : Char → Bool) (l : List Char) : List Char :=
  rstripP p (l.dropWhile p)

/-- Embeds `clean_text` from `src/extractors/utils_text.py`: collapse each
whitespace run to a single space, then trim both ends. -/
def cleanChars (l : List Char) : List Char :=
  stripP isWsChar (collapseWsAux l false)

/-- String-level wrapper of `cleanChars`; the embedding of `clean_text`. -/
def clean_text (s : String) : String :=
  String.mk (cleanChars s.data)

/-- ASCII lowercasing of one character, modelling Python `str.lower()`. -/
def lowerChar (c : Char) : Char :=
  if ('A') ≤ c && c ≤ 'Z' then Char.ofNat (c.toNat + 32) else c

/-- ASCII lowercasing of a character list. -/
def lowerStr (l : List Char) : List Char :=
  l.map lowerChar

/-- String-level ASCII lowercasing, modelling Python `str.lower()`. -/
def pyLower (s : String) : String :=
  String.mk (lowerStr s.data)

/-- A character is either not whitespace, or it is the plain space. -/
def goodChar (c : Char) : Bool :=
  !isWsChar c || c = ' '

/-- No two adjacent characters are both whitespace. -/
def noDoubleWs : List Char → Bool
  | a :: b :: t => !(isWsChar a && isWsChar b) && noDoubleWs (b :: t)
  | _ => true

/-- The first character, if any, is not whitespace. -/
def headNotWs : List Char → Bool
  | [] => true
  | c :: _ => !isWsChar c

/-- The last character, if any, does not satisfy `p` (vacuously true for
the empty list). -/
def lastSat (p : Char → Bool) : List Char → Bool
  | [] => true
  | [c] => !p c
  | _ :: c :: t => lastSat p (c :: t)

/-- The last character, if any, is not whitespace. -/
def lastNotWs (l : List Char) : Bool := lastSat isWsChar l

/-- Shape of the outputs of `clean_text`: every whitespace character is a
plain space, no two adjacent whitespace characters, and no leading or
trailing whitespace. -/
def cleanShape (l : List Char) : Bool :=
  l.all goodChar && noDoubleWs l && headNotWs l && lastNotWs l

theorem noDoubleWs_pair (a b : Char) (t : List Char) :
    noDoubleWs (a :: b :: t) =
      (!(isWsChar a && isWsChar b) && noDoubleWs (b :: t)) := rfl

theorem noDoubleWs_one (a : Char) : noDoubleWs [a] = true := rfl

theorem headNotWs_cons (c : Char) (l : List Char) :
    headNotWs (c :: l) = !isWsChar c := rfl

theorem noDoubleWs_tail (a : Char) (l : List Char)
    (h : noDoubleWs (a :: l) = true) : noDoubleWs l = true := by
  cases l with
  | nil => rfl
  | cons b t =>
    rw [noDoubleWs_pair] at h
    exact ((Bool.and_eq_true ..).mp h).2

theorem collapseWsAux_all_good (l : List Char) (b : Bool) :
    (collapseWsAux l b).all goodChar = true := by
  induction l generalizing b with
  | nil => rfl
  | cons c cs ih =>
    by_cases hc : isWsChar c = true
    · cases b <;> simp [collapseWsAux, hc, goodChar, ih]
    · simp only [Bool.not_eq_true] at hc
      simp [collapseWsAux, hc, goodChar, ih]

theorem collapseWsAux_head_true (l : List Char) :
    headNotWs (collapseWsAux l true) = true := by
  induction l with
  | nil => rfl
  | cons c cs ih =>
    by_cases hc : isWsChar c = true
    · simpa [collapseWsAux, hc] using ih
    · simp only [Bool.not_eq_true] at hc
      simp [collapseWsAux, hc, headNotWs]

theorem collapseWsAux_noDouble (l : List Char) (b : Bool) :
    noDoubleWs (collapseWsAux l b) = true := by
  induction l generalizing b with
  | nil => rfl
  | cons c cs ih =>
    by_cases hc : isWsChar c = true
    · cases b with
      | true => simpa [collapseWsAux, hc] using ih true
      | false =>
        have h1 : collapseWsAux (c :: cs) false = ' ' :: collapseWsAux cs true := by
          simp [collapseWsAux, hc]
        rw [h1]
        have hhd := collapseWsAux_head_true cs
        have hnd := ih true
        cases hcol : collapseWsAux cs true with
        | nil => rfl
        | cons d ds =>
          rw [hcol] at hhd hnd
          rw [headNotWs_cons, Bool.not_eq_true'] at hhd
          rw [noDoubleWs_pair]
          simp [hhd, hnd]
    · simp only [Bool.not_eq_true] at hc
      have h1 : collapseWsAux (c :: cs) b = c :: collapseWsAux cs false := by
        simp [collapseWsAux, hc]
      rw [h1]
      have hnd := ih false
      cases hcol : collapseWsAux cs false with
      | nil => rfl
      | cons d ds =>
        rw [hcol] at hnd
        rw [noDoubleWs_pair]
        simp [hc, hnd]

theorem all_dropWhile (p q : Char → Bool) (l : List Char)
    (h : l.all p = true) : (l.dropWhile q).all p = true := by
  induction l with
  | nil => rfl
  | cons c cs ih =>
    simp only [List.all_cons, Bool.and_eq_true] at h
    by_cases hq : q c = true
    · simp [List.dropWhile_cons, hq, ih h.2]
    · simp only [Bool.not_eq_true] at hq
      simpa [List.dropWhile_cons, hq] using h

theorem all_rstripP (p q : Char → Bool) (l : List Char)
    (h : l.all p = true) : (rstripP q l).all p = true := by
  induction l with
  | nil => rfl
  | cons c cs ih =>
    simp only [List.all_cons, Bool.and_eq_true] at h
    simp only [rstripP]
    cases hr : rstripP q cs with
    | nil =>
      by_cases hq : q c = true
      · simp [hq]
      · simp only [Bool.not_eq_true] at hq
        simp [hq, h.1]
    | cons d ds =>
      have := ih h.2
      rw [hr] at this
      simp [h.1, this]

theorem noDoubleWs_dropWhile (q : Char → Bool) (l : List Char)
    (h : noDoubleWs l = true) : noDoubleWs (l.dropWhile q) = true := by
  induction l with
  | nil => rfl
  | cons c cs ih =>
    by_cases hq : q c = true
    · simp only [List.dropWhile_cons, hq, if_pos]
      exact ih (noDoubleWs_tail c cs h)
    · simp only [Bool.not_eq_true] at hq
      simpa [List.dropWhile_cons, hq] using h

theorem rstripP_head (q : Char → Bool) (c : Char) (cs : List Char) :
    rstripP q (c :: cs) = [] ∨ ∃ r, rstripP q (c :: cs) = c :: r := by
  simp only [rstripP]
  cases rstripP q cs with
  | nil =>
    by_cases hq : q c = true
    · left; simp [hq]
    · right; exact ⟨[], by simp only [Bool.not_eq_true] at hq; simp [hq]⟩
  | cons d ds => right; exact ⟨d :: ds, rfl⟩

theorem rstripP_cons_eq (q : Char → Bool) (c : Char) (cs : List Char) :
    rstripP q (c :: cs) =
      (match rstripP q cs with
       | [] => if q c then [] else [c]
       | r => c :: r) := rfl

theorem noDoubleWs_rstripP (q : Char → Bool) (l : List Char)
    (h : noDoubleWs l = true) : noDoubleWs (rstripP q l) = true := by
  induction l with
  | nil => rfl
  | cons c cs ih =>
    have htail := ih (noDoubleWs_tail c cs h)
    rw [rstripP_cons_eq]
    cases hr : rstripP q cs with
    | nil =>
      by_cases hq : q c = true
      · simp [hq, noDoubleWs]
      · simp only [Bool.not_eq_true] at hq
        simp [hq, noDoubleWs]
    | cons d ds =>
      rw [hr] at htail
      show noDoubleWs (c :: d :: ds) = true
      cases cs with
      | nil => simp [rstripP] at hr
      | cons e es =>
        rcases rstripP_head q e es with h0 | ⟨r, hrr⟩
        · rw [h0] at hr; exact absurd hr (by simp)
        · rw [hrr] at hr
          have hde : d = e := by
            injection hr with h1 h2
            exact h1.symm
          rw [noDoubleWs_pair] at h
          have hpair := ((Bool.and_eq_true ..).mp h).1
          subst hde
          rw [noDoubleWs_pair]
          simp [hpair, htail]

theorem headNotWs_dropWhile (l : List Char) :
    headNotWs (l.dropWhile isWsChar) = true := by
  induction l with
  | nil => rfl
  | cons c cs ih =>
    by_cases hc : isWsChar c = true
    · simpa [List.dropWhile_cons, hc] using ih
    · simp only [Bool.not_eq_true] at hc
      simp [List.dropWhile_cons, hc, headNotWs]

theorem headNotWs_rstripP (q : Char → Bool) (l : List Char)
    (h : headNotWs l = true) : headNotWs (rstripP q l) = true := by
  cases l with
  | nil => rfl
  | cons c cs =>
    rcases rstripP_head q c cs with h0 | ⟨r, hr⟩
    · rw [h0]; rfl
    · rw [hr]
      simpa [headNotWs] using h

theorem lastSat_cons2 (p : Char → Bool) (a b : Char) (t : List Char) :
    lastSat p (a :: b :: t) = lastSat p (b :: t) := rfl

theorem lastSat_rstripP (q : Char → Bool) (l : List Char) :
    lastSat q (rstripP q l) = true := by
  induction l with
  | nil => rfl
  | cons c cs ih =>
    rw [rstripP_cons_eq]
    cases hr : rstripP q cs with
    | nil =>
      by_cases hq : q c = true
      · simp [hq, lastSat]
      · simp only [Bool.not_eq_true] at hq
        simp [hq, lastSat]
    | cons d ds =>
      rw [hr] at ih
      show lastSat q (c :: d :: ds) = true
      rw [lastSat_cons2]
      exact ih

theorem cleanShape_cleanChars (l : List Char) :
    cleanShape (cleanChars l) = true := by
  unfold cleanShape cleanChars stripP
  have hall : ((collapseWsAux l false).dropWhile isWsChar).all goodChar = true :=
    all_dropWhile _ _ _ (collapseWsAux_all_good l false)
  have hnd : noDoubleWs ((collapseWsAux l false).dropWhile isWsChar) = true :=
    noDoubleWs_dropWhile _ _ (collapseWsAux_noDouble l false)
  have hhd : headNotWs ((collapseWsAux l false).dropWhile isWsChar) = true :=
    headNotWs_dropWhile _
  simp [all_rstripP _ _ _ hall, noDoubleWs_rstripP _ _ hnd,
    headNotWs_rstripP _ _ hhd, lastNotWs, lastSat_rstripP]

theorem collapseWsAux_id (l : List Char) (b : Bool)
    (hgood : l.all goodChar = true) (hnd : noDoubleWs l = true)
    (hb : b = true → headNotWs l = true) :
    collapseWsAux l b = l := by
  induction l generalizing b with
  | nil => rfl
  | cons c cs ih =>
    simp only [List.all_cons, Bool.and_eq_true] at hgood
    by_cases hc : isWsChar c = true
    · have hsp : c = ' ' := by
        have := hgood.1
        simp only [goodChar, hc, Bool.not_true, Bool.false_or] at this
        exact of_decide_eq_true this
      have hbf : b = false := by
        cases b with
        | false => rfl
        | true =>
          have := hb rfl
          rw [headNotWs_cons, hc] at this
          simp at this
      subst hbf
      have h1 : collapseWsAux (c :: cs) false = ' ' :: collapseWsAux cs true := by
        simp [collapseWsAux, hc]
      rw [h1, hsp]
      congr 1
      apply ih (b := true) hgood.2 (noDoubleWs_tail c cs hnd)
      intro _
      cases cs with
      | nil => rfl
      | cons d ds =>
        rw [noDoubleWs_pair] at hnd
        have := ((Bool.and_eq_true ..).mp hnd).1
        simp only [hc, Bool.true_and, Bool.not_eq_true'] at this
        rw [headNotWs_cons, this]
        rfl
    · simp only [Bool.not_eq_true] at hc
      have h1 : collapseWsAux (c :: cs) b = c :: collapseWsAux cs false := by
        simp [collapseWsAux, hc]
      rw [h1]
      congr 1
      apply ih (b := false) hgood.2 (noDoubleWs_tail c cs hnd)
      intro h
      exact absurd h (by simp)

theorem dropWhile_id_of_headNotWs (l : List Char)
    (h : headNotWs l = true) : l.dropWhile isWsChar = l := by
  cases l with
  | nil => rfl
  | cons c cs =>
    simp only [headNotWs, Bool.not_eq_true'] at h
    simp [List.dropWhile_cons, h]

theorem rstripP_id_of_lastSat (q : Char → Bool) (l : List Char)
    (h : lastSat q l = true) : rstripP q l = l := by
  induction l with
  | nil => rfl
  | cons c cs ih =>
    cases cs with
    | nil =>
      simp only [lastSat, Bool.not_eq_true'] at h
      simp [rstripP, h]
    | cons d ds =>
      have hlast : lastSat q (d :: ds) = true := h
      have hr := ih hlast
      rw [rstripP_cons_eq, hr]

theorem cleanChars_of_shape (l : List Char)
    (h : cleanShape l = true) : cleanChars l = l := by
  simp only [cleanShape, Bool.and_eq_true] at h
  obtain ⟨⟨⟨hgood, hnd⟩, hhd⟩, hlast⟩ := h
  unfold cleanChars stripP
  rw [collapseWsAux_id l false hgood hnd (by intro h; exact absurd h (by simp)),
    dropWhile_id_of_headNotWs l hhd, rstripP_id_of_lastSat isWsChar l hlast]

theorem cleanChars_fixed_iff (l : List Char) :
    cleanChars l = l ↔ cleanShape l = true := by
  constructor
  · intro h
    have := cleanShape_cleanChars l
    rwa [h] at this
  · exact cleanChars_of_shape l

theorem cleanChars_idem (l : List Char) :
    cleanChars (cleanChars l) = cleanChars l :=
  cleanChars_of_shape _ (cleanShape_cleanChars l)

/-- C10 counterexample: `"a\tb"` has no leading/trailing whitespace and no
run of two or more whitespace characters, yet it is not a fixed point of
`clean_text` (the lone tab is rewritten to a space), refuting the claimed
characterization of the fixed points. -/
theorem claim_C10_counterexample :
    clean_text ("a\tb") ≠ "a\tb" ∧
    noDoubleWs ("a\tb").data = true ∧
    headNotWs ("a\tb").data = true ∧
    lastNotWs ("a\tb").data = true := by
  decide

/-- C10 (amended): `clean_text` is idempotent, and its fixed points are
exactly the strings with no leading/trailing whitespace, no run of two or
more whitespace characters, and whose whitespace characters are all plain
spaces (`cleanShape`). -/
theorem claim_C10_clean_text_idempotent_fixed :
    (∀ s : String, clean_text (clean_text s) = clean_text s) ∧
    (∀ s : String, clean_text s = s ↔ cleanShape s.data = true) := by
  constructor
  · intro s
    exact congrArg String.mk (cleanChars_idem s.data)
  · intro s
    constructor
    · intro h
      rw [← cleanChars_fixed_iff]
      exact congrArg String.data h
    · intro h
      calc clean_text s = String.mk (cleanChars s.data) := rfl
        _ = String.mk s.data := by rw [cleanChars_of_shape s.data h]
        _ = s := rfl

/-- Decimal digit character for `d` (for `d ≥ 9` the digit `9`; only ever
applied to values below ten). -/
def digitChar (d : Nat) : Char :=
  match d with
  | 0 => '0'
  | 1 => '1'
  | 2 => '2'
  | 3 => '3'
  | 4 => '4'
  | 5 => '5'
  | 6 => '6'
  | 7 => '7'
  | 8 => '8'
  | _ => '9'

/-- Fuelled decimal rendering of a natural number (the fuel makes the
definition structural; `natDigits` supplies enough fuel). -/
def natDigitsGo : Nat → Nat → List Char
  | 0, _ => []
  | fuel + 1, n =>
    if n < 10 then [digitChar n]
    else natDigitsGo fuel (n / 10) ++ [digitChar (n % 10)]

/-- Decimal digit string of a natural number, as Python `str(n)` renders
it. -/
def natDigits (n : Nat) : List Char := natDigitsGo (n + 1) n

/-- String form of `natDigits`. -/
def natStr (n : Nat) : String := String.mk (natDigits n)

/-- Character class of the regex `\d` over ASCII. -/
def isDigitChar (c : Char) : Bool := '0' ≤ c && c ≤ '9'

/-- Numeric value of a decimal digit string, as Python `int(s)` computes
it for a string of digits. -/
def digitsToNat (l : List Char) : Nat :=
  l.foldl (fun acc c => acc * 10 + (c.toNat - 48)) 0

/-- Whether the first list is a prefix of the second. -/
def startsWithL : List Char → List Char → Bool
  | [], _ => true
  | _ :: _, [] => false
  | p :: ps, c :: cs => p = c && startsWithL ps cs

/-- Whether `pat` occurs as a contiguous sublist, modelling Python's
`pat in s` substring test for non-empty `pat`. -/
def containsL (pat : List Char) : List Char → Bool
  | [] => startsWithL pat []
  | c :: cs => startsWithL pat (c :: cs) || containsL pat cs

/-- List form of the string before the first occurrence of `pat`
(the whole list when `pat` does not occur), modelling
`s.partition(pat)[0]`. -/
def beforeFirstL (pat : List Char) : List Char → List Char
  | [] => []
  | c :: cs =>
    if startsWithL pat (c :: cs) then []
    else c :: beforeFirstL pat cs

/-- Characters stripped by `.strip(" ,-")` in `parse_created_at`. -/
def isPosPunct (c : Char) : Bool := c = ' ' || c = ',' || c = '-'

/-- Alternatives of the unit group in the regex
`(\d+)\s+(minute|minutes|hour|hours|day|days|week|weeks)\s+ago`, in the
regex's order. -/
def unitAlts : List (List Char) :=
  [("minute").data, ("minutes").data, ("hour").data, ("hours").data,
   ("day").data, ("days").data, ("week").data, ("weeks").data]

/-- After the unit word, the regex requires whitespace and the literal
`ago` (the match is not anchored at the end). -/
def agoAfterUnit (r : List Char) : Bool :=
  !(r.takeWhile isWsChar).isEmpty &&
    startsWithL (("ago").data) (r.dropWhile isWsChar)

/-- Compilation of
`re.match(r"(\d+)\s+(minute|minutes|hour|hours|day|days|week|weeks)\s+ago", s)`:
a maximal digit run at the start, whitespace, the first unit alternative
that is followed by whitespace and `ago`.  Returns the numeric value of
the digit group and the matched unit word.  Greedy `\d+`/`\s+` need no
backtracking here because no alternative starts with a digit or
whitespace; the alternation order realizes the regex's backtracking. -/
def relMatch (l : List Char) : Option (Nat × List Char) :=
  let ds := l.takeWhile isDigitChar
  if ds.isEmpty then none
  else
    let r1 := l.dropWhile isDigitChar
    if (r1.takeWhile isWsChar).isEmpty then none
    else
      let r2 := r1.dropWhile isWsChar
      match unitAlts.find?
          (fun alt => startsWithL alt r2 && agoAfterUnit (r2.drop alt.length)) with
      | some alt => some (digitsToNat ds, alt)
      | none => none

/-- Seconds represented by the matched unit word, following the
`"minute" in unit` / `"hour" in unit` / … containment cascade that builds
the `timedelta` keyword arguments. -/
def unitSecondsOf (u : List Char) : Nat :=
  if containsL (("minute").data) u then 60
  else if containsL (("hour").data) u then 3600
  else if containsL (("day").data) u then 86400
  else if containsL (("week").data) u then 604800
  else 0

/-- Result of `parse_created_at`: either an ISO-8601 UTC rendering of a
definite instant (identified by its epoch-second count), or a plain text
fallback. -/
inductive CreatedAt where
  | timestamp (epochSeconds : Int)
  | text (s : String)
deriving DecidableEq, Repr

/-- Strip of the leading `posted` token and surrounding `" ,-"`
punctuation performed by `parse_created_at` (the guarded
`replace("posted", "", 1)` followed by `strip(" ,-")`). -/
def stripPosted (tc : List Char) : List Char :=
  if startsWithL (("posted").data) tc then stripP isPosPunct (tc.drop 6)
  else tc

/-- Embeds `parse_created_at` from `src/extractors/utils_text.py`.  `dtp`
is the `dateutil.parser.parse` collaborator (returning the parsed instant
with the naive-datetime UTC default already applied, or `none` when it
raises); `now` is `datetime.now(timezone.utc)` in epoch seconds.  The
Python year-range limits of `datetime` are not modelled: instants are
unbounded. -/
def parse_created_at (dtp : String → Option Int) (now : Int) (text : String) :
    CreatedAt :=
  let tc0 := lowerStr (cleanChars text.data)
  if tc0.isEmpty then CreatedAt.text ("")
  else
    let tc := stripPosted tc0
    match relMatch tc with
    | some (v, u) => CreatedAt.timestamp (now - Int.ofNat (v * unitSecondsOf u))
    | none =>
      if tc = ("yesterday").data then CreatedAt.timestamp (now - 86400)
      else
        match dtp (String.mk tc) with
        | some t => CreatedAt.timestamp t
        | none => CreatedAt.text (String.mk (cleanChars text.data))

/-- Time units recognized by the relative-date regex. -/
inductive TUnit where
  | minute
  | hour
  | day
  | week
deriving DecidableEq, Repr

/-- Singular or plural English name of a time unit. -/
def tunitName : TUnit → Bool → String
  | TUnit.minute, false => "minute"
  | TUnit.minute, true => "minutes"
  | TUnit.hour, false => "hour"
  | TUnit.hour, true => "hours"
  | TUnit.day, false => "day"
  | TUnit.day, true => "days"
  | TUnit.week, false => "week"
  | TUnit.week, true => "weeks"

/-- Seconds in one time unit. -/
def tunitSeconds : TUnit → Nat
  | TUnit.minute => 60
  | TUnit.hour => 3600
  | TUnit.day => 86400
  | TUnit.week => 604800

theorem isDigitChar_digitChar (d : Nat) : isDigitChar (digitChar d) = true := by
  unfold digitChar
  split <;> rfl

theorem isWsChar_digitChar (d : Nat) : isWsChar (digitChar d) = false := by
  unfold digitChar
  split <;> rfl

theorem lowerChar_digitChar (d : Nat) : lowerChar (digitChar d) = digitChar d := by
  unfold digitChar
  split <;> rfl

theorem isPosPunct_digitChar (d : Nat) : isPosPunct (digitChar d) = false := by
  unfold digitChar
  split <;> rfl

theorem digitChar_val (d : Nat) (h : d < 10) : (digitChar d).toNat - 48 = d := by
  interval_cases d <;> rfl

theorem natDigitsGo_ne_nil (fuel n : Nat) (h : n < fuel) :
    natDigitsGo fuel n ≠ [] := by
  cases fuel with
  | zero => omega
  | succ f =>
    unfold natDigitsGo
    by_cases h10 : n < 10
    · simp [h10]
    · rw [if_neg h10]
      intro hc
      have := congrArg List.length hc
      simp at this

theorem natDigitsGo_mem (fuel n : Nat) (c : Char)
    (hc : c ∈ natDigitsGo fuel n) : ∃ d, c = digitChar d := by
  induction fuel generalizing n with
  | zero => simp [natDigitsGo] at hc
  | succ f ih =>
    unfold natDigitsGo at hc
    by_cases h10 : n < 10
    · rw [if_pos h10] at hc
      simp at hc
      exact ⟨n, hc⟩
    · rw [if_neg h10] at hc
      rw [List.mem_append] at hc
      rcases hc with hc | hc
      · exact ih _ hc
      · simp at hc
        exact ⟨n % 10, hc⟩

theorem natDigitsGo_foldl (fuel : Nat) :
    ∀ n acc, n < fuel →
      (natDigitsGo fuel n).foldl (fun a c => a * 10 + (c.toNat - 48)) acc
        = acc * 10 ^ (natDigitsGo fuel n).length + n := by
  induction fuel with
  | zero => intro n acc h; omega
  | succ f ih =>
    intro n acc h
    unfold natDigitsGo
    by_cases h10 : n < 10
    · rw [if_pos h10]
      simp [digitChar_val n h10]
    · rw [if_neg h10]
      have hdiv : n / 10 < f := by
        have := Nat.div_lt_self (by omega : 0 < n) (by omega : 1 < 10)
        omega
      rw [List.foldl_append, ih (n / 10) acc hdiv]
      have hdm : n / 10 * 10 + n % 10 = n := by omega
      have hmod : (digitChar (n % 10)).toNat - 48 = n % 10 :=
        digitChar_val _ (Nat.mod_lt _ (by omega))
      simp only [List.foldl_cons, List.foldl_nil, List.length_append,
        List.length_cons, List.length_nil, hmod]
      calc (acc * 10 ^ (natDigitsGo f (n / 10)).length + n / 10) * 10 + n % 10
          = acc * (10 ^ (natDigitsGo f (n / 10)).length * 10)
              + (n / 10 * 10 + n % 10) := by ring
        _ = acc * 10 ^ ((natDigitsGo f (n / 10)).length + (0 + 1)) + n := by
            rw [hdm, pow_succ]

theorem natDigits_ne_nil (n : Nat) : natDigits n ≠ [] :=
  natDigitsGo_ne_nil _ _ (by omega)

theorem natDigits_mem (n : Nat) (c : Char) (hc : c ∈ natDigits n) :
    ∃ d, c = digitChar d :=
  natDigitsGo_mem _ _ _ hc

theorem digitsToNat_natDigits (n : Nat) : digitsToNat (natDigits n) = n := by
  unfold digitsToNat natDigits
  rw [natDigitsGo_foldl (n + 1) n 0 (by omega)]
  simp

theorem natDigits_all_digit (n : Nat) :
    ∀ c ∈ natDigits n, isDigitChar c = true := by
  intro c hc
  obtain ⟨d, rfl⟩ := natDigits_mem n c hc
  exact isDigitChar_digitChar d

theorem natDigits_all_notWs (n : Nat) :
    ∀ c ∈ natDigits n, isWsChar c = false := by
  intro c hc
  obtain ⟨d, rfl⟩ := natDigits_mem n c hc
  exact isWsChar_digitChar d

theorem map_eq_self_of (f : Char → Char) (l : List Char)
    (h : ∀ c ∈ l, f c = c) : l.map f = l := by
  induction l with
  | nil => rfl
  | cons c cs ih =>
    rw [List.map_cons, h c (by simp), ih (fun x hx => h x (by simp [hx]))]

theorem natDigits_map_lower (n : Nat) :
    (natDigits n).map lowerChar = natDigits n := by
  apply map_eq_self_of
  intro c hc
  obtain ⟨d, rfl⟩ := natDigits_mem n c hc
  exact lowerChar_digitChar d

theorem takeWhile_append_of_all (p : Char → Bool) (l rest : List Char)
    (h : ∀ c ∈ l, p c = true) :
    (l ++ rest).takeWhile p = l ++ rest.takeWhile p := by
  induction l with
  | nil => rfl
  | cons c cs ih =>
    rw [List.cons_append, List.takeWhile_cons, h c (by simp),
      ih (fun x hx => h x (by simp [hx]))]
    rfl

theorem dropWhile_append_of_all (p : Char → Bool) (l rest : List Char)
    (h : ∀ c ∈ l, p c = true) :
    (l ++ rest).dropWhile p = rest.dropWhile p := by
  induction l with
  | nil => rfl
  | cons c cs ih =>
    rw [List.cons_append, List.dropWhile_cons]
    simp only [h c (by simp), if_pos]
    exact ih (fun x hx => h x (by simp [hx]))

theorem startsWithL_cons_same (c : Char) (ps cs : List Char) :
    startsWithL (c :: ps) (c :: cs) = startsWithL ps cs := by
  simp [startsWithL]

theorem collapseWsAux_append_nonws (l : List Char) :
    ∀ (rest : List Char) (b : Bool),
      (∀ c ∈ l, isWsChar c = false) → l ≠ [] →
      collapseWsAux (l ++ rest) b = l ++ collapseWsAux rest false := by
  induction l with
  | nil => intro rest b _ hne; exact absurd rfl hne
  | cons c cs ih =>
    intro rest b hl _
    have hc : isWsChar c = false := hl c (by simp)
    rw [List.cons_append]
    have h1 : collapseWsAux (c :: (cs ++ rest)) b
        = c :: collapseWsAux (cs ++ rest) false := by
      simp [collapseWsAux, hc]
    rw [h1]
    by_cases hcs : cs = []
    · subst hcs
      simp
    · rw [ih rest false (fun x hx => hl x (by simp [hx])) hcs]
      rfl

theorem collapseWsAux_nonws_id (l : List Char) (b : Bool)
    (hl : ∀ c ∈ l, isWsChar c = false) (hne : l ≠ []) :
    collapseWsAux l b = l := by
  have := collapseWsAux_append_nonws l [] b hl hne
  simpa [collapseWsAux] using this

theorem collapseWsAux_cons_space (r : List Char) :
    collapseWsAux (' ' :: r) false = ' ' :: collapseWsAux r true := by
  simp [collapseWsAux, isWsChar]

theorem lastSat_cons_of_ne (p : Char → Bool) (c : Char) (l : List Char)
    (h : l ≠ []) : lastSat p (c :: l) = lastSat p l := by
  cases l with
  | nil => exact absurd rfl h
  | cons d ds => exact lastSat_cons2 p c d ds

theorem lastSat_append (p : Char → Bool) (l m : List Char) (h : m ≠ []) :
    lastSat p (l ++ m) = lastSat p m := by
  induction l with
  | nil => rfl
  | cons c cs ih =>
    have hne : cs ++ m ≠ [] := by
      intro hx
      exact h (List.append_eq_nil.mp hx).2
    rw [List.cons_append, lastSat_cons_of_ne p c _ hne, ih]

theorem lastSat_of_all (p : Char → Bool) (l : List Char)
    (hne : l ≠ []) (h : ∀ c ∈ l, p c = false) : lastSat p l = true := by
  induction l with
  | nil => exact absurd rfl hne
  | cons c cs ih =>
    cases cs with
    | nil =>
      simp [lastSat, h c (by simp)]
    | cons d ds =>
      rw [lastSat_cons2]
      exact ih (by simp) (fun x hx => h x (by simp [hx]))

theorem cleanChars_words4 (w1 w2 w3 w4 : List Char)
    (h1 : w1 ≠ []) (g1 : ∀ c ∈ w1, isWsChar c = false)
    (h2 : w2 ≠ []) (g2 : ∀ c ∈ w2, isWsChar c = false)
    (h3 : w3 ≠ []) (g3 : ∀ c ∈ w3, isWsChar c = false)
    (h4 : w4 ≠ []) (g4 : ∀ c ∈ w4, isWsChar c = false) :
    cleanChars (w1 ++ ' ' :: (w2 ++ ' ' :: (w3 ++ ' ' :: w4)))
      = w1 ++ ' ' :: (w2 ++ ' ' :: (w3 ++ ' ' :: w4)) := by
  have hcol : collapseWsAux (w1 ++ ' ' :: (w2 ++ ' ' :: (w3 ++ ' ' :: w4))) false
      = w1 ++ ' ' :: (w2 ++ ' ' :: (w3 ++ ' ' :: w4)) := by
    rw [collapseWsAux_append_nonws w1 _ false g1 h1, collapseWsAux_cons_space,
      collapseWsAux_append_nonws w2 _ true g2 h2, collapseWsAux_cons_space,
      collapseWsAux_append_nonws w3 _ true g3 h3, collapseWsAux_cons_space,
      collapseWsAux_nonws_id w4 true g4 h4]
  unfold cleanChars stripP
  rw [hcol]
  obtain ⟨a, t, ha⟩ := List.exists_cons_of_ne_nil h1
  have hmem : a ∈ w1 := by rw [ha]; exact List.mem_cons_self a t
  have hdrop : ((w1 ++ ' ' :: (w2 ++ ' ' :: (w3 ++ ' ' :: w4))).dropWhile isWsChar)
      = w1 ++ ' ' :: (w2 ++ ' ' :: (w3 ++ ' ' :: w4)) := by
    rw [ha, List.cons_append, List.dropWhile_cons]
    simp [g1 a hmem]
  rw [hdrop]
  apply rstripP_id_of_lastSat
  have m2 : w2 ++ ' ' :: (w3 ++ ' ' :: w4) ≠ [] := by
    intro hx; exact h2 (List.append_eq_nil.mp hx).1
  have m3 : w3 ++ ' ' :: w4 ≠ [] := by
    intro hx; exact h3 (List.append_eq_nil.mp hx).1
  rw [lastSat_append _ _ _ (by simp), lastSat_cons_of_ne _ _ _ m2,
    lastSat_append _ _ _ (by simp), lastSat_cons_of_ne _ _ _ m3,
    lastSat_append _ _ _ (by simp), lastSat_cons_of_ne _ _ _ h4]
  exact lastSat_of_all _ _ h4 g4

theorem parse_created_at_rel_master (dtp : String → Option Int) (now : Int)
    (n : Nat) (uc : List Char) (secs : Nat)
    (hne : uc ≠ [])
    (hws : ∀ c ∈ uc, isWsChar c = false)
    (hlow : uc.map lowerChar = uc)
    (hfs : (unitAlts.find?
        (fun alt => startsWithL alt (uc ++ (' ' :: ('a' :: 'g' :: 'o' :: []))) &&
          agoAfterUnit ((uc ++ (' ' :: ('a' :: 'g' :: 'o' :: []))).drop alt.length))).map
        unitSecondsOf = some secs) :
    parse_created_at dtp now
        (String.mk (('P' :: 'o' :: 's' :: 't' :: 'e' :: 'd' :: []) ++
          (' ' :: (natDigits n ++ (' ' :: (uc ++ (' ' :: ('a' :: 'g' :: 'o' :: []))))))))
      = CreatedAt.timestamp (now - Int.ofNat (n * secs)) := by
  obtain ⟨alt0, hfind, hsecs⟩ := Option.map_eq_some'.mp hfs
  have hclean : cleanChars (('P' :: 'o' :: 's' :: 't' :: 'e' :: 'd' :: []) ++
      (' ' :: (natDigits n ++ (' ' :: (uc ++ (' ' :: ('a' :: 'g' :: 'o' :: [])))))))
      = ('P' :: 'o' :: 's' :: 't' :: 'e' :: 'd' :: []) ++
        (' ' :: (natDigits n ++ (' ' :: (uc ++ (' ' :: ('a' :: 'g' :: 'o' :: [])))))) :=
    cleanChars_words4 _ _ _ _ (by simp) (by decide) (natDigits_ne_nil n)
      (natDigits_all_notWs n) hne hws (by simp) (by decide)
  have hlowmap : lowerStr (('P' :: 'o' :: 's' :: 't' :: 'e' :: 'd' :: []) ++
      (' ' :: (natDigits n ++ (' ' :: (uc ++ (' ' :: ('a' :: 'g' :: 'o' :: [])))))))
      = 'p' :: 'o' :: 's' :: 't' :: 'e' :: 'd' :: ' ' ::
        (natDigits n ++ (' ' :: (uc ++ (' ' :: ('a' :: 'g' :: 'o' :: []))))) := by
    simp only [lowerStr, List.map_append, List.map_cons, List.map_nil,
      (by decide : lowerChar ('P') = 'p'), (by decide : lowerChar ('o') = 'o'),
      (by decide : lowerChar ('s') = 's'), (by decide : lowerChar ('t') = 't'),
      (by decide : lowerChar ('e') = 'e'), (by decide : lowerChar ('d') = 'd'),
      (by decide : lowerChar (' ') = ' '), (by decide : lowerChar ('a') = 'a'),
      (by decide : lowerChar ('g') = 'g'), natDigits_map_lower]
    rw [hlow]
    simp
  obtain ⟨d0, dt, hD0⟩ := List.exists_cons_of_ne_nil (natDigits_ne_nil n)
  have hd0mem : d0 ∈ natDigits n := by rw [hD0]; exact List.mem_cons_self d0 dt
  have hd0p : isPosPunct d0 = false := by
    obtain ⟨d, rfl⟩ := natDigits_mem n d0 hd0mem
    exact isPosPunct_digitChar d
  obtain ⟨u0, ut, hU0⟩ := List.exists_cons_of_ne_nil hne
  have hu0mem : u0 ∈ uc := by rw [hU0]; exact List.mem_cons_self u0 ut
  have hu0w : isWsChar u0 = false := hws u0 hu0mem
  have hstrip : stripPosted ('p' :: 'o' :: 's' :: 't' :: 'e' :: 'd' :: ' ' ::
      (natDigits n ++ (' ' :: (uc ++ (' ' :: ('a' :: 'g' :: 'o' :: []))))))
      = natDigits n ++ (' ' :: (uc ++ (' ' :: ('a' :: 'g' :: 'o' :: [])))) := by
    unfold stripPosted
    rw [show ("posted").data = 'p' :: 'o' :: 's' :: 't' :: 'e' :: 'd' :: [] from rfl]
    simp only [startsWithL_cons_same]
    rw [show startsWithL [] (' ' :: (natDigits n ++ (' ' ::
      (uc ++ (' ' :: ('a' :: 'g' :: 'o' :: [])))))) = true from rfl]
    simp only [if_true]
    rw [show (('p' :: 'o' :: 's' :: 't' :: 'e' :: 'd' :: ' ' ::
      (natDigits n ++ (' ' :: (uc ++ (' ' :: ('a' :: 'g' :: 'o' :: [])))))).drop 6)
      = ' ' :: (natDigits n ++ (' ' :: (uc ++ (' ' :: ('a' :: 'g' :: 'o' :: [])))))
      from rfl]
    unfold stripP
    rw [List.dropWhile_cons]
    simp only [(by decide : isPosPunct (' ') = true), if_true]
    have hdp : ((natDigits n ++ (' ' :: (uc ++ (' ' ::
        ('a' :: 'g' :: 'o' :: []))))).dropWhile isPosPunct)
        = natDigits n ++ (' ' :: (uc ++ (' ' :: ('a' :: 'g' :: 'o' :: [])))) := by
      rw [hD0, List.cons_append, List.dropWhile_cons]
      simp [hd0p]
    rw [hdp]
    apply rstripP_id_of_lastSat
    have m2 : uc ++ (' ' :: ('a' :: 'g' :: 'o' :: [])) ≠ [] := by
      intro hx; exact hne (List.append_eq_nil.mp hx).1
    rw [lastSat_append _ _ _ (by simp), lastSat_cons_of_ne _ _ _ m2,
      lastSat_append _ _ _ (by simp),
      lastSat_cons_of_ne _ _ _ (by simp : ('a' :: 'g' :: 'o' :: []) ≠ [])]
    decide
  have hts : ((natDigits n ++ (' ' :: (uc ++ (' ' ::
      ('a' :: 'g' :: 'o' :: []))))).takeWhile isDigitChar) = natDigits n := by
    rw [takeWhile_append_of_all _ _ _ (natDigits_all_digit n), List.takeWhile_cons]
    simp [(by decide : isDigitChar (' ') = false)]
  have hds : ((natDigits n ++ (' ' :: (uc ++ (' ' ::
      ('a' :: 'g' :: 'o' :: []))))).dropWhile isDigitChar)
      = ' ' :: (uc ++ (' ' :: ('a' :: 'g' :: 'o' :: []))) := by
    rw [dropWhile_append_of_all _ _ _ (natDigits_all_digit n), List.dropWhile_cons]
    simp [(by decide : isDigitChar (' ') = false)]
  have hrel : relMatch (natDigits n ++ (' ' :: (uc ++ (' ' ::
      ('a' :: 'g' :: 'o' :: []))))) = some (n, alt0) := by
    unfold relMatch
    simp only [hts, hds]
    rw [show (natDigits n).isEmpty = false from by rw [hD0]; rfl]
    simp only [Bool.false_eq_true, if_neg]
    rw [List.takeWhile_cons]
    simp only [(by decide : isWsChar (' ') = true), if_true, List.isEmpty_cons,
      Bool.false_eq_true, if_neg]
    rw [List.dropWhile_cons]
    simp only [(by decide : isWsChar (' ') = true), if_true]
    have hdw : ((uc ++ (' ' :: ('a' :: 'g' :: 'o' :: []))).dropWhile isWsChar)
        = uc ++ (' ' :: ('a' :: 'g' :: 'o' :: [])) := by
      rw [hU0, List.cons_append, List.dropWhile_cons]
      simp [hu0w]
    rw [hdw, hfind, digitsToNat_natDigits]
    simp
  show parse_created_at dtp now (String.mk _) = _
  unfold parse_created_at
  rw [show (String.mk (('P' :: 'o' :: 's' :: 't' :: 'e' :: 'd' :: []) ++
    (' ' :: (natDigits n ++ (' ' :: (uc ++ (' ' :: ('a' :: 'g' :: 'o' :: [])))))))).data
    = ('P' :: 'o' :: 's' :: 't' :: 'e' :: 'd' :: []) ++
      (' ' :: (natDigits n ++ (' ' :: (uc ++ (' ' :: ('a' :: 'g' :: 'o' :: []))))))
    from rfl]
  rw [hclean, hlowmap]
  simp only [List.isEmpty_cons, Bool.false_eq_true, if_neg]
  rw [hstrip, hrel]
  simp [hsecs]

/-- C2: `parse_created_at` maps `"Posted <N> <unit> ago"` (unit among
minute(s)/hour(s)/day(s)/week(s)) at clock `now` to the ISO timestamp of
`now` minus the stated offset; the literal `yesterday` (bare or after
`Posted`) yields `now` minus one day; empty or whitespace-only input
yields the empty string; and when no parsing strategy (relative regex,
`yesterday` literal, `dateutil`) recognizes the stripped text, the
cleaned original text is returned unchanged. -/
theorem claim_C2_parse_created_at :
    (∀ (dtp : String → Option Int) (now : Int) (u : TUnit) (pl : Bool) (n : Nat),
      parse_created_at dtp now
          ("Posted " ++ natStr n ++ " " ++ tunitName u pl ++ " ago")
        = CreatedAt.timestamp (now - Int.ofNat (n * tunitSeconds u))) ∧
    (∀ (dtp : String → Option Int) (now : Int),
      parse_created_at dtp now ("yesterday")
          = CreatedAt.timestamp (now - 86400) ∧
      parse_created_at dtp now ("Posted yesterday")
          = CreatedAt.timestamp (now - 86400)) ∧
    (∀ (dtp : String → Option Int) (now : Int) (s : String),
      clean_text s = "" → parse_created_at dtp now s = CreatedAt.text ("")) ∧
    (∀ (dtp : String → Option Int) (now : Int) (s : String),
      lowerStr (cleanChars s.data) ≠ [] →
      relMatch (stripPosted (lowerStr (cleanChars s.data))) = none →
      stripPosted (lowerStr (cleanChars s.data)) ≠ ("yesterday").data →
      dtp (String.mk (stripPosted (lowerStr (cleanChars s.data)))) = none →
      parse_created_at dtp now s = CreatedAt.text (clean_text s)) := by
  refine ⟨?_, ?_, ?_, ?_⟩
  · intro dtp now u pl n
    have hdata : ("Posted " ++ natStr n ++ " " ++ tunitName u pl ++ " ago").data
        = ('P' :: 'o' :: 's' :: 't' :: 'e' :: 'd' :: []) ++
          (' ' :: (natDigits n ++ (' ' :: ((tunitName u pl).data ++
            (' ' :: ('a' :: 'g' :: 'o' :: [])))))) := by
      simp [String.data_append, (show (natStr n).data = natDigits n from rfl),
        (show ("Posted ").data = ('P' :: 'o' :: 's' :: 't' :: 'e' :: 'd' :: ' ' :: []) from rfl),
        (show (" ").data = (' ' :: []) from rfl),
        (show (" ago").data = (' ' :: 'a' :: 'g' :: 'o' :: []) from rfl)]
    have harg : ("Posted " ++ natStr n ++ " " ++ tunitName u pl ++ " ago")
        = String.mk (('P' :: 'o' :: 's' :: 't' :: 'e' :: 'd' :: []) ++
          (' ' :: (natDigits n ++ (' ' :: ((tunitName u pl).data ++
            (' ' :: ('a' :: 'g' :: 'o' :: []))))))) :=
      calc ("Posted " ++ natStr n ++ " " ++ tunitName u pl ++ " ago")
          = String.mk (("Posted " ++ natStr n ++ " " ++ tunitName u pl ++ " ago").data) := rfl
        _ = _ := congrArg String.mk hdata
    rw [harg]
    cases u <;> cases pl <;>
      exact parse_created_at_rel_master dtp now n _ _ (by decide) (by decide)
        (by decide) (by decide)
  · intro dtp now
    exact ⟨rfl, rfl⟩
  · intro dtp now s h
    have h0 : cleanChars s.data = [] := congrArg String.data h
    simp [parse_created_at, h0, lowerStr]
  · intro dtp now s h1 h2 h3 h4
    unfold parse_created_at
    obtain ⟨c, t, hc⟩ := List.exists_cons_of_ne_nil h1
    rw [hc]
    simp only [List.isEmpty_cons, Bool.false_eq_true, if_neg]
    rw [← hc, h2]
    simp only [h3, if_neg, h4]
    simp [clean_text]

/-- Witness for C2: the fallback and empty-input cases instantiated at
concrete inputs with a failing `dateutil` oracle. -/
theorem claim_C2_witness :
    parse_created_at (fun _ => none) 0 ("not a date")
        = CreatedAt.text ("not a date") ∧
    parse_created_at (fun _ => none) 0 (" \t ") = CreatedAt.text ("") := by
  constructor
  · exact (claim_C2_parse_created_at.2.2.2 (fun _ => none) 0 ("not a date")
      (by decide) (by decide) (by decide) rfl).trans (by decide)
  · exact claim_C2_parse_created_at.2.2.1 (fun _ => none) 0 (" \t ") (by decide)

/-- Compilation of `re.search(r"(\d+)\s+reviews", s)`: scan start
positions left to right; at each digit position take the maximal digit
run and require whitespace and the literal `reviews` after it.  As with
`relMatch`, the greedy quantifiers need no backtracking for this
pattern. -/
def searchReviews : List Char → Option Nat
  | [] => none
  | c :: cs =>
    if isDigitChar c then
      if !(((c :: cs).dropWhile isDigitChar).takeWhile isWsChar).isEmpty &&
          startsWithL (("reviews").data)
            ((((c :: cs).dropWhile isDigitChar).dropWhile isWsChar)) then
        some (digitsToNat ((c :: cs).takeWhile isDigitChar))
      else searchReviews cs
    else searchReviews cs

/-- Values of `re.findall(r"\d+", s)` converted with `int`: the maximal
digit runs of the text in order.  `cur` accumulates the current run in
reverse. -/
def allNumbersAux (cur : List Char) : List Char → List Nat
  | [] => if cur.isEmpty then [] else [digitsToNat cur.reverse]
  | c :: cs =>
    if isDigitChar c then allNumbersAux (c :: cur) cs
    else if cur.isEmpty then allNumbersAux [] cs
    else digitsToNat cur.reverse :: allNumbersAux [] cs

/-- All maximal digit runs of `l`, as numbers, left to right. -/
def allNumbersL (l : List Char) : List Nat := allNumbersAux [] l

/-- Embeds `parse_client_reviews` from `src/extractors/utils_text.py`:
prefer the first `"<N> reviews"` match, else the first integer substring
strictly between 0 and 10000, else 0.  The codomain `Nat` reflects that
every path yields a non-negative integer and no exception escapes. -/
def parse_client_reviews (s : String) : Nat :=
  let tc := lowerStr (cleanChars s.data)
  match searchReviews tc with
  | some m => m
  | none =>
    match (allNumbersL tc).find? (fun k => decide (0 < k) && decide (k < 10000)) with
    | some k => k
    | none => 0

/-- Follows the spec's words for `parseClientReviews`: return N for the
first `"<N> reviews"` pattern; otherwise scan all integer substrings left
to right and return the first one strictly between 0 and 10000 (here: the
head of the filtered list); otherwise 0. -/
def parseClientReviewsSpec (s : String) : Nat :=
  let tc := lowerStr (cleanChars s.data)
  match searchReviews tc with
  | some m => m
  | none =>
    ((allNumbersL tc).filter (fun k => decide (0 < k) && decide (k < 10000))).headD 0

theorem find?_eq_filter_head? (p : Nat → Bool) (l : List Nat) :
    l.find? p = (l.filter p).head? := by
  induction l with
  | nil => rfl
  | cons c cs ih =>
    rw [List.find?_cons, List.filter_cons]
    cases hp : p c with
    | true => rfl
    | false => exact ih

/-- C3: `parse_client_reviews` agrees with the spec's description
(first `"<N> reviews"` match, else first integer substring in
`(0, 10000)`, else 0), on every input; the spec's three examples hold.
The `Nat` codomain witnesses non-negativity and totality. -/
theorem claim_C3_parse_client_reviews :
    (∀ s : String, parse_client_reviews s = parseClientReviewsSpec s) ∧
    parse_client_reviews ("48 reviews, $15,000+ spent") = 48 ∧
    parse_client_reviews ("") = 0 ∧
    parse_client_reviews ("12000 spent") = 0 := by
  refine ⟨?_, by decide, by decide, by decide⟩
  intro s
  unfold parse_client_reviews parseClientReviewsSpec
  cases hsr : searchReviews (lowerStr (cleanChars s.data)) with
  | some m => simp [hsr]
  | none =>
    simp only [hsr]
    rw [find?_eq_filter_head?]
    cases ((allNumbersL (lowerStr (cleanChars s.data))).filter
        (fun k => decide (0 < k) && decide (k < 10000))) with
    | nil => rfl
    | cons a t => rfl

/-- Embeds `parse_job_type` from `src/extractors/utils_text.py`
(including the source's redundant second `"fixed-price"` test). -/
def parse_job_type (s : String) : String :=
  let tc := lowerStr (cleanChars s.data)
  if containsL (("hourly").data) tc then ("Hourly")
  else if containsL (("fixed-price").data) tc || containsL (("fixed price").data) tc
      || containsL (("fixed-price").data) tc then ("Fixed")
  else ("")

/-- Embeds `parse_budget` from `src/extractors/utils_text.py`:
pass-through cleaning. -/
def parse_budget (s : String) : String := clean_text s

/-- Embeds `parse_client_spent` from `src/extractors/utils_text.py`:
pass-through cleaning. -/
def parse_client_spent (s : String) : String := clean_text s

/-- Loop of `parse_skills_list` from `src/extractors/utils_text.py`:
`seen` is the set of already-kept lower-cased keys. -/
def parseSkillsGo (seen : List String) : List String → List String
  | [] => []
  | raw :: rest =>
    let skill := clean_text raw
    if skill = "" then parseSkillsGo seen rest
    else
      let key := pyLower skill
      if seen.contains key then parseSkillsGo seen rest
      else skill :: parseSkillsGo (key :: seen) rest

/-- Embeds `parse_skills_list`: clean entries, drop empties, deduplicate
case-insensitively keeping the first occurrence. -/
def parse_skills_list (skills_raw : List String) : List String :=
  parseSkillsGo [] skills_raw

/-- Follows the spec's words for `parseSkillsList`: clean each entry,
drop empties, and keep a cleaned entry while erasing every later entry
with the same case-insensitive key, preserving order. -/
def parseSkillsListSpec : List String → List String
  | [] => []
  | raw :: rest =>
    let skill := clean_text raw
    if skill = "" then parseSkillsListSpec rest
    else skill :: (parseSkillsListSpec rest).filter
        (fun t => decide (pyLower t ≠ pyLower skill))

theorem parseSkillsGo_eq (rest : List String) : ∀ seen : List String,
    parseSkillsGo seen rest
      = (parseSkillsListSpec rest).filter
          (fun t => !(seen.contains (pyLower t))) := by
  induction rest with
  | nil => intro seen; rfl
  | cons raw rest ih =>
    intro seen
    unfold parseSkillsGo parseSkillsListSpec
    by_cases hs : clean_text raw = ""
    · rw [if_pos hs, if_pos hs]
      exact ih seen
    · rw [if_neg hs, if_neg hs, List.filter_cons]
      by_cases hseen : seen.contains (pyLower (clean_text raw)) = true
      · have hmem : pyLower (clean_text raw) ∈ seen := by simpa using hseen
        rw [if_pos hseen, if_neg (by rw [hseen]; simp)]
        rw [ih seen, List.filter_filter]
        apply List.filter_congr
        intro a _
        by_cases hak : pyLower a = pyLower (clean_text raw)
        · simp [hak, hmem]
        · by_cases hamem : pyLower a ∈ seen
          · simp [hak, hamem]
          · simp [hak, hamem]
      · have hsf : seen.contains (pyLower (clean_text raw)) = false := by
          simpa using hseen
        have hnmem : pyLower (clean_text raw) ∉ seen := by simpa using hsf
        rw [if_neg hseen, if_pos (by rw [hsf]; rfl)]
        rw [ih (pyLower (clean_text raw) :: seen), List.filter_filter]
        congr 1
        apply List.filter_congr
        intro a _
        by_cases hak : pyLower a = pyLower (clean_text raw)
        · simp [hak, hnmem]
        · by_cases hamem : pyLower a ∈ seen
          · simp [hak, hamem]
          · simp [hak, hamem]

/-- C6: `parse_skills_list` agrees on every input with the spec's
description (clean, drop empties, case-insensitive first-occurrence
deduplication preserving order and first-seen casing), and maps the
spec's example maps to `["Python", "Go"]`. -/
theorem claim_C6_parse_skills_list :
    (∀ l : List String, parse_skills_list l = parseSkillsListSpec l) ∧
    parse_skills_list (["Python", ("python "), "Go"]) = ["Python", "Go"] := by
  constructor
  · intro l
    unfold parse_skills_list
    rw [parseSkillsGo_eq l []]
    apply List.filter_eq_self.mpr
    intro a _
    simp
  · decide

/-- Prefix of `l` before the first occurrence of `ch` (the whole list
when `ch` is absent), modelling `s.split(ch)[0]` / `s.split(ch, 1)[0]`. -/
def beforeFirstChar (ch : Char) : List Char → List Char
  | [] => []
  | c :: cs => if c = ch then [] else c :: beforeFirstChar ch cs

/-- Suffix of `l` after the first occurrence of `ch` (empty when absent),
modelling `s.split(ch, 1)[-1]` under a guard that `ch` occurs. -/
def afterFirstChar (ch : Char) : List Char → List Char
  | [] => []
  | c :: cs => if c = ch then cs else afterFirstChar ch cs

/-- Suffix of `l` after the last occurrence of `ch` (the whole list when
absent), modelling `s.split(ch)[-1]`. -/
def afterLastChar (ch : Char) (l : List Char) : List Char :=
  (l.reverse.takeWhile (fun c => !(c = ch))).reverse

/-- The record assembled by `_parse_single_job` in
`src/extractors/upwork_parser.py`.  `createdAt` carries the abstract
`CreatedAt` result instead of its string rendering. -/
structure JobRecord where
  jobId : String
  title : String
  description : String
  createdAt : CreatedAt
  jobType : String
  duration : String
  budget : String
  clientLocation : String
  clientPaymentVerification : Bool
  clientSpent : String
  clientReviews : Nat
  category : String
  skills : List String
deriving DecidableEq, Repr

/-- Abstraction of one BeautifulSoup card fragment: the outcomes of the
attribute reads and selector queries `_parse_single_job` performs on it.
`none` models a selector without match or a missing attribute.
`smallSpanTexts` holds the `get_text(strip=True)` texts of the
`small, span` elements in document order; `fullText` is
`card.get_text(" ", strip=True)`; the remaining text fields are raw
`get_text()` results. -/
structure Card where
  attrDataJobId : Option String
  attrDataEvJobId : Option String
  attrDataTestJobId : Option String
  jobLinkHref : Option String
  titleText : Option String
  descText : Option String
  postedOnText : Option String
  smallSpanTexts : List String
  fullText : String
  durationText : Option String
  budgetText : Option String
  locationText : Option String
  spentText : Option String
  categoryText : Option String
  skillTexts : List String
deriving DecidableEq, Repr

/-- Python truthiness on an optional string: `None` and `""` are falsy. -/
def truthyOpt : Option String → Option String
  | some s => if s = "" then none else some s
  | none => none

/-- Job id extracted from a matching job link's href: the `~`-delimited
segment when present (up to the next `/` or `?`), else the trailing path
segment with any query string stripped. -/
def jobIdFromHref (href : String) : String :=
  if containsL (['~']) href.data then
    String.mk (beforeFirstChar ('?') (beforeFirstChar ('/') (afterFirstChar ('~') href.data)))
  else
    String.mk (beforeFirstChar ('?')
      (afterLastChar ('/') (rstripP (fun c => c = '/') href.data)))

/-- The `job_id` value after the data-attribute loop and the link
fallback of `_parse_single_job` (`none` models Python `None`/falsy). -/
def cardJobId (c : Card) : Option String :=
  match truthyOpt c.attrDataJobId with
  | some s => some s
  | none =>
    match truthyOpt c.attrDataEvJobId with
    | some s => some s
    | none =>
      match truthyOpt c.attrDataTestJobId with
      | some s => some s
      | none =>
        match c.jobLinkHref with
        | some href => some (jobIdFromHref href)
        | none => none

/-- The cleaned title of a card (empty when no title element matches). -/
def cardTitle (c : Card) : String :=
  match c.titleText with
  | some t => clean_text t
  | none => ""

/-- The cleaned description of a card. -/
def cardDesc (c : Card) : String :=
  match c.descText with
  | some t => clean_text t
  | none => ""

/-- The `created_text` of a card: the `job-posted-on` element's text,
else the first `small`/`span` text starting with `posted`
(case-insensitively), else `""`. -/
def cardCreatedText (c : Card) : String :=
  match c.postedOnText with
  | some t => t
  | none =>
    match c.smallSpanTexts.find?
        (fun t => startsWithL (("posted").data) (lowerStr t.data)) with
    | some t => t
    | none => ""

/-- Embeds `_parse_single_job` from `src/extractors/upwork_parser.py`:
resolve every field through its fallback cascade and the normalizers,
and emit the record unless job id, title and description all resolved
empty (the no-record signal `none`). -/
def parse_single_job (dtp : String → Option Int) (now : Int) (c : Card) :
    Option JobRecord :=
  if (cardJobId c).getD ("") = "" ∧ cardTitle c = "" ∧ cardDesc c = "" then none
  else some {
    jobId := (cardJobId c).getD ("")
    title := cardTitle c
    description := cardDesc c
    createdAt := parse_created_at dtp now (cardCreatedText c)
    jobType := parse_job_type c.fullText
    duration := (c.durationText.map clean_text).getD ("")
    budget := parse_budget ((c.budgetText.map clean_text).getD (""))
    clientLocation := (c.locationText.map clean_text).getD ("")
    clientPaymentVerification :=
      containsL (("payment verified").data) (lowerStr c.fullText.data)
    clientSpent := parse_client_spent ((c.spentText.map clean_text).getD (""))
    clientReviews := parse_client_reviews c.fullText
    category := (c.categoryText.map clean_text).getD ("")
    skills := parse_skills_list c.skillTexts }

/-- Abstraction of a fetched page: the raw html text and, for each
selector of the card cascade, the processing outcomes of its matches
(`Except.error ()` models a card whose extraction raises). -/
structure Page where
  html : String
  airCards : List (Except Unit Card)
  jobTiles : List (Except Unit Card)
  sections : List (Except Unit Card)
  articles : List (Except Unit Card)

/-- The `or`-cascade over the four card selectors of
`parse_jobs_from_html`. -/
def selectJobCards (p : Page) : List (Except Unit Card) :=
  if p.airCards.isEmpty then
    if p.jobTiles.isEmpty then
      if p.sections.isEmpty then p.articles
      else p.sections
    else p.jobTiles
  else p.airCards

/-- Embeds `parse_jobs_from_html` from
`src/extractors/upwork_parser.py`: empty html short-circuits to `[]`;
otherwise each selected card is processed inside a `try`, a raising card
is logged and skipped, and the records of the remaining cards are
collected in order. -/
def parse_jobs_from_html (dtp : String → Option Int) (now : Int) (p : Page) :
    List JobRecord :=
  if p.html = "" then []
  else (selectJobCards p).filterMap
    (fun co => match co with
      | Except.error _ => none
      | Except.ok card => parse_single_job dtp now card)

theorem parse_single_job_none_iff (dtp : String → Option Int) (now : Int)
    (c : Card) :
    parse_single_job dtp now c = none ↔
      ((cardJobId c).getD ("") = "" ∧ cardTitle c = "" ∧ cardDesc c = "") := by
  unfold parse_single_job
  by_cases h : (cardJobId c).getD ("") = "" ∧ cardTitle c = "" ∧ cardDesc c = ""
  · simp [h]
  · simp [h]

theorem parse_single_job_some_nonempty (dtp : String → Option Int)
    (now : Int) (c : Card) (j : JobRecord)
    (hj : parse_single_job dtp now c = some j) :
    j.jobId ≠ "" ∨ j.title ≠ "" ∨ j.description ≠ "" := by
  unfold parse_single_job at hj
  by_cases h : (cardJobId c).getD ("") = "" ∧ cardTitle c = "" ∧ cardDesc c = ""
  · simp [h] at hj
  · rw [if_neg h] at hj
    rw [Option.some_inj] at hj
    subst hj
    push_neg at h
    by_cases h1 : (cardJobId c).getD ("") = ""
    · by_cases h2 : cardTitle c = ""
      · exact Or.inr (Or.inr (h h1 h2))
      · exact Or.inr (Or.inl h2)
    · exact Or.inl h1

/-- C1: the Record Extractor returns its no-record signal exactly when
job id, title and description all resolve empty; every emitted record
has one of those three fields non-empty; and every record returned by
the Page Parser satisfies the same non-emptiness predicate. -/
theorem claim_C1_record_emission :
    (∀ (dtp : String → Option Int) (now : Int) (c : Card),
      parse_single_job dtp now c = none ↔
        ((cardJobId c).getD ("") = "" ∧ cardTitle c = "" ∧ cardDesc c = "")) ∧
    (∀ (dtp : String → Option Int) (now : Int) (c : Card) (j : JobRecord),
      parse_single_job dtp now c = some j →
        j.jobId ≠ "" ∨ j.title ≠ "" ∨ j.description ≠ "") ∧
    (∀ (dtp : String → Option Int) (now : Int) (p : Page) (j : JobRecord),
      j ∈ parse_jobs_from_html dtp now p →
        j.jobId ≠ "" ∨ j.title ≠ "" ∨ j.description ≠ "") := by
  refine ⟨parse_single_job_none_iff, parse_single_job_some_nonempty, ?_⟩
  intro dtp now p j hj
  unfold parse_jobs_from_html at hj
  by_cases hh : p.html = ""
  · simp [hh] at hj
  · rw [if_neg hh, List.mem_filterMap] at hj
    obtain ⟨co, _, hmap⟩ := hj
    cases co with
    | error e => simp at hmap
    | ok card => exact parse_single_job_some_nonempty dtp now card j hmap

/-- A card carrying only a title, as in the spec's testable property. -/
def sampleCardTitleOnly : Card :=
  { attrDataJobId := none
    attrDataEvJobId := none
    attrDataTestJobId := none
    jobLinkHref := none
    titleText := some ("Data entry")
    descText := none
    postedOnText := none
    smallSpanTexts := []
    fullText := "Data entry"
    durationText := none
    budgetText := none
    locationText := none
    spentText := none
    categoryText := none
    skillTexts := [] }

/-- The record the extractor produces for `sampleCardTitleOnly`. -/
def sampleTitleRecord : JobRecord :=
  { jobId := ""
    title := "Data entry"
    description := ""
    createdAt := CreatedAt.text ("")
    jobType := ""
    duration := ""
    budget := ""
    clientLocation := ""
    clientPaymentVerification := false
    clientSpent := ""
    clientReviews := 0
    category := ""
    skills := [] }

/-- A one-card page built from `sampleCardTitleOnly`. -/
def samplePageTitleOnly : Page :=
  { html := "x"
    airCards := [Except.ok sampleCardTitleOnly]
    jobTiles := []
    sections := []
    articles := [] }

/-- Witness for C1: the record parsed from a title-only card on a
one-card page satisfies the non-emptiness predicate. -/
theorem claim_C1_witness :
    sampleTitleRecord.jobId ≠ "" ∨ sampleTitleRecord.title ≠ "" ∨
      sampleTitleRecord.description ≠ "" :=
  claim_C1_record_emission.2.2 (fun _ => none) 0 samplePageTitleOnly
    sampleTitleRecord (by decide)

/-- C5: the Page Parser always returns a list; a card whose extraction
raises is skipped without affecting the records of the other cards, and
empty page text yields `[]` whatever the selector contents are. -/
theorem claim_C5_page_parser_error_isolation :
    (∀ (dtp : String → Option Int) (now : Int) (html : String)
        (l1 l2 : List (Except Unit Card)),
      parse_jobs_from_html dtp now
          { html := html, airCards := l1 ++ Except.error () :: l2,
            jobTiles := [], sections := [], articles := [] }
        = parse_jobs_from_html dtp now
          { html := html, airCards := l1 ++ l2,
            jobTiles := [], sections := [], articles := [] }) ∧
    (∀ (dtp : String → Option Int) (now : Int)
        (a b c d : List (Except Unit Card)),
      parse_jobs_from_html dtp now
        { html := "", airCards := a, jobTiles := b, sections := c,
          articles := d } = []) := by
  constructor
  · intro dtp now html l1 l2
    by_cases hh : html = ""
    · simp [parse_jobs_from_html, hh]
    · unfold parse_jobs_from_html selectJobCards
      rw [if_neg hh, if_neg hh]
      by_cases hl : l1 ++ l2 = []
      · obtain ⟨h1, h2⟩ := List.append_eq_nil.mp hl
        subst h1
        subst h2
        simp
      · have h1 : (l1 ++ Except.error () :: l2 :
            List (Except Unit Card)).isEmpty = false := by
          cases l1 <;> rfl
        have h2 : (l1 ++ l2).isEmpty = false := by
          cases hx : l1 ++ l2 with
          | nil => exact absurd hx hl
          | cons y ys => rfl
        rw [if_neg (by rw [h1]; simp), if_neg (by rw [h2]; simp)]
        rw [List.filterMap_append, List.filterMap_append]
        simp
  · intro dtp now a b c d
    simp [parse_jobs_from_html]

/-- Inner accumulation loop of `scrape`: append the page's records one
by one, breaking as soon as the accumulated count reaches `maxItems`. -/
def appendUpTo (maxItems : Nat) (jobs : List JobRecord) :
    List JobRecord → List JobRecord
  | [] => jobs
  | j :: rest =>
    if maxItems ≤ (jobs ++ [j]).length then jobs ++ [j]
    else appendUpTo maxItems (jobs ++ [j]) rest

/-- Page loop of `scrape`: `rem` pages remain, `page` is the next page
number, `jobs` the accumulator.  The cap check precedes each page; empty
fetched text stops the loop; the inter-page sleep has no observable
effect in the embedding. -/
def scrapeGo (maxItems : Nat) (fetchPage : Nat → String)
    (parsePage : String → List JobRecord) :
    Nat → Nat → List JobRecord → List JobRecord
  | 0, _, jobs => jobs
  | rem + 1, page, jobs =>
    if maxItems ≤ jobs.length then jobs
    else
      if fetchPage page = "" then jobs
      else
        scrapeGo maxItems fetchPage parsePage rem (page + 1)
          (appendUpTo maxItems jobs (parsePage (fetchPage page)))

/-- Embeds `scrape` from `src/extractors/upwork_parser.py`, with the
fetch collaborator (`fetch_search_page`, whose failures surface as `""`)
and the Page Parser as oracle parameters. -/
def scrape (maxItems : Nat) (fetchPage : Nat → String)
    (parsePage : String → List JobRecord) (maxPages : Nat) : List JobRecord :=
  scrapeGo maxItems fetchPage parsePage maxPages 1 []

theorem appendUpTo_length (maxItems : Nat) (pj : List JobRecord) :
    ∀ jobs : List JobRecord, jobs.length < maxItems →
      (appendUpTo maxItems jobs pj).length ≤ maxItems := by
  induction pj with
  | nil => intro jobs h; exact Nat.le_of_lt h
  | cons j rest ih =>
    intro jobs h
    unfold appendUpTo
    by_cases hc : maxItems ≤ (jobs ++ [j]).length
    · rw [if_pos hc]
      simp only [List.length_append, List.length_cons, List.length_nil]
      omega
    · rw [if_neg hc]
      exact ih (jobs ++ [j]) (by omega)

theorem appendUpTo_take (maxItems : Nat) (pj : List JobRecord) :
    ∀ jobs : List JobRecord, jobs.length < maxItems →
      appendUpTo maxItems jobs pj = jobs ++ pj.take (maxItems - jobs.length) := by
  induction pj with
  | nil => intro jobs _; simp [appendUpTo]
  | cons j rest ih =>
    intro jobs h
    unfold appendUpTo
    have hlen : (jobs ++ [j]).length = jobs.length + 1 := by simp
    by_cases hc : maxItems ≤ (jobs ++ [j]).length
    · rw [if_pos hc]
      have h1 : maxItems - jobs.length = 1 := by omega
      rw [h1]
      simp
    · rw [if_neg hc]
      rw [ih (jobs ++ [j]) (by omega)]
      have h2 : maxItems - jobs.length = (maxItems - (jobs ++ [j]).length) + 1 := by
        omega
      rw [h2, List.take_succ_cons, hlen]
      simp

theorem scrapeGo_length (maxItems : Nat) (fetchPage : Nat → String)
    (parsePage : String → List JobRecord) (rem : Nat) :
    ∀ (page : Nat) (jobs : List JobRecord), jobs.length ≤ maxItems →
      (scrapeGo maxItems fetchPage parsePage rem page jobs).length ≤ maxItems := by
  induction rem with
  | zero => intro page jobs h; exact h
  | succ r ih =>
    intro page jobs h
    unfold scrapeGo
    by_cases hc : maxItems ≤ jobs.length
    · rw [if_pos hc]; exact h
    · rw [if_neg hc]
      by_cases hf : fetchPage page = ""
      · rw [if_pos hf]; exact h
      · rw [if_neg hf]
        exact ih (page + 1) _
          (appendUpTo_length maxItems _ jobs (by omega))

/-- C4: the Orchestrator's accumulated result never exceeds the cap; a
page's contribution is truncated to the remaining capacity; and with
`maxItems = 5` over pages of 10 records each, exactly 5 records come
back and the run is unchanged when only 1 of the 50 pages may be
visited (the loop stops after the first page). -/
theorem claim_C4_scrape_cap :
    (∀ (maxItems : Nat) (fetchPage : Nat → String)
        (parsePage : String → List JobRecord) (maxPages : Nat),
      (scrape maxItems fetchPage parsePage maxPages).length ≤ maxItems) ∧
    (∀ (maxItems : Nat) (jobs pj : List JobRecord),
      jobs.length < maxItems →
      appendUpTo maxItems jobs pj = jobs ++ pj.take (maxItems - jobs.length)) ∧
    (scrape 5 (fun _ => "x") (fun _ => List.replicate 10 sampleTitleRecord) 50
        = List.replicate 5 sampleTitleRecord ∧
      scrape 5 (fun _ => "x") (fun _ => List.replicate 10 sampleTitleRecord) 50
        = scrape 5 (fun _ => "x") (fun _ => List.replicate 10 sampleTitleRecord) 1) := by
  refine ⟨?_, ?_, by decide, by decide⟩
  · intro maxItems fetchPage parsePage maxPages
    exact scrapeGo_length maxItems fetchPage parsePage maxPages 1 [] (by simp)
  · intro maxItems jobs pj h
    exact appendUpTo_take maxItems pj jobs h

/-- Witness for C4: the truncation equation instantiated at a concrete
accumulator, cap and page. -/
theorem claim_C4_witness :
    appendUpTo 3 [sampleTitleRecord] (List.replicate 10 sampleTitleRecord)
      = [sampleTitleRecord] ++ (List.replicate 10 sampleTitleRecord).take 2 :=
  claim_C4_scrape_cap.2.1 3 [sampleTitleRecord]
    (List.replicate 10 sampleTitleRecord) (by decide)

/-- Result of `template.format(page=page)` restricted to the constructs
`_build_url` relies on: a `{page}` field is substituted by the page
number, `{{`/`}}` escapes produce literal braces, and any other brace
construct (an unknown or malformed field, a stray closing brace) makes
the call raise, modelled by `Except.error ()`.  Fields carrying a
format spec such as `{page:d}` are outside the model and also mapped to
the error case. -/
def formatPage (page : Nat) : List Char → Except Unit (List Char)
  | [] => Except.ok []
  | c :: rest =>
    if c = '{' then
      match rest with
      | '{' :: rest2 => (fun r => '{' :: r) <$> formatPage page rest2
      | 'p' :: 'a' :: 'g' :: 'e' :: '}' :: rest2 =>
        (fun r => natDigits page ++ r) <$> formatPage page rest2
      | _ => Except.error ()
    else if c = '}' then
      match rest with
      | '}' :: rest2 => (fun r => '}' :: r) <$> formatPage page rest2
      | _ => Except.error ()
    else (fun r => c :: r) <$> formatPage page rest

/-- Embeds `_build_url` from `src/extractors/upwork_parser.py`:
substitute `{page}` when the template contains it (an exception raised
by `str.format` propagates, as `Except.error`); else update or append a
`page=` query parameter (`partition("page=")` keeps only the text
before the first occurrence); else append `?page=<n>`. -/
def build_url (tmpl : String) (page : Nat) : Except Unit String :=
  if containsL (("{page}").data) tmpl.data then
    (fun r => String.mk r) <$> formatPage page tmpl.data
  else if containsL (['?']) tmpl.data then
    if containsL (("page=").data) tmpl.data then
      Except.ok (String.mk (beforeFirstL (("page=").data) tmpl.data ++
        ("page=").data ++ natDigits page))
    else Except.ok (String.mk (tmpl.data ++ ("&page=").data ++ natDigits page))
  else Except.ok (String.mk (tmpl.data ++ ("?page=").data ++ natDigits page))

/-- The template text `s0{page}s1{page}…sk` assembled from its
placeholder-free segments. -/
def pageSegs : List (List Char) → List Char
  | [] => []
  | s :: rest =>
    match rest with
    | [] => s
    | _ :: _ => s ++ (("{page}").data ++ pageSegs rest)

/-- The same segments joined by the rendered page number: the result of
substituting every `{page}` of `pageSegs segs`. -/
def pageSegsSub (page : Nat) : List (List Char) → List Char
  | [] => []
  | s :: rest =>
    match rest with
    | [] => s
    | _ :: _ => s ++ (natDigits page ++ pageSegsSub page rest)

/-- A text fragment containing no brace character. -/
def braceFree (l : List Char) : Bool :=
  l.all (fun c => !(c = '{' || c = '}'))

theorem startsWithL_self_append (pat r : List Char) :
    startsWithL pat (pat ++ r) = true := by
  induction pat with
  | nil => rfl
  | cons p ps ih =>
    rw [List.cons_append, startsWithL_cons_same]
    exact ih

theorem containsL_of_startsWith (pat l : List Char)
    (h : startsWithL pat l = true) : containsL pat l = true := by
  cases l with
  | nil => exact h
  | cons c cs => simp [containsL, h]

theorem containsL_of_split (pat l1 l2 : List Char) :
    containsL pat (l1 ++ (pat ++ l2)) = true := by
  induction l1 with
  | nil => exact containsL_of_startsWith _ _ (startsWithL_self_append pat l2)
  | cons c cs ih =>
    rw [List.cons_append]
    simp [containsL, ih]

theorem startsWithL_exists (pat : List Char) :
    ∀ l, startsWithL pat l = true → ∃ r, l = pat ++ r := by
  induction pat with
  | nil => intro l _; exact ⟨l, rfl⟩
  | cons p ps ih =>
    intro l h
    cases l with
    | nil => simp [startsWithL] at h
    | cons c cs =>
      simp only [startsWithL, Bool.and_eq_true, decide_eq_true_eq] at h
      obtain ⟨r, hr⟩ := ih cs h.2
      exact ⟨r, by rw [hr, ← h.1]; rfl⟩

theorem beforeFirstL_spec (pat : List Char) :
    ∀ l, containsL pat l = true →
      ∃ post, l = beforeFirstL pat l ++ (pat ++ post) := by
  intro l
  induction l with
  | nil =>
    intro h
    cases pat with
    | nil => exact ⟨[], rfl⟩
    | cons p ps => simp [containsL, startsWithL] at h
  | cons c cs ih =>
    intro h
    by_cases hs : startsWithL pat (c :: cs) = true
    · obtain ⟨r, hr⟩ := startsWithL_exists pat (c :: cs) hs
      refine ⟨r, ?_⟩
      unfold beforeFirstL
      rw [if_pos hs, List.nil_append]
      exact hr
    · have hcs : containsL pat cs = true := by
        have := h
        unfold containsL at this
        rw [Bool.or_eq_true] at this
        rcases this with h1 | h1
        · exact absurd h1 hs
        · exact h1
      obtain ⟨post, hpost⟩ := ih hcs
      refine ⟨post, ?_⟩
      unfold beforeFirstL
      rw [if_neg hs, List.cons_append, ← hpost]

theorem formatPage_cons_plain (page : Nat) (c : Char) (rest : List Char)
    (h1 : ¬c = '{') (h2 : ¬c = '}') :
    formatPage page (c :: rest)
      = (fun r => c :: r) <$> formatPage page rest := by
  rw [formatPage.eq_def]
  simp only [if_neg h1, if_neg h2]

theorem formatPage_id_of_braceFree (page : Nat) :
    ∀ l, braceFree l = true → formatPage page l = Except.ok l := by
  intro l
  induction l with
  | nil => intro _; rfl
  | cons c cs ih =>
    intro h
    simp only [braceFree, List.all_cons, Bool.and_eq_true] at h
    have hc : ¬(c = '{' ∨ c = '}') := by simpa using h.1
    rw [formatPage_cons_plain page c cs (fun hx => hc (Or.inl hx))
      (fun hx => hc (Or.inr hx))]
    rw [ih h.2]
    rfl

theorem formatPage_braceFree_append (page : Nat) :
    ∀ (a rest : List Char), braceFree a = true →
      formatPage page (a ++ rest)
        = (fun r => a ++ r) <$> formatPage page rest := by
  intro a
  induction a with
  | nil =>
    intro rest _
    show formatPage page rest = _
    cases formatPage page rest <;> rfl
  | cons c cs ih =>
    intro rest h
    simp only [braceFree, List.all_cons, Bool.and_eq_true] at h
    have hc : ¬(c = '{' ∨ c = '}') := by simpa using h.1
    rw [List.cons_append,
      formatPage_cons_plain page c (cs ++ rest) (fun hx => hc (Or.inl hx))
        (fun hx => hc (Or.inr hx)),
      ih rest h.2]
    cases formatPage page rest <;> rfl

theorem formatPage_at_pat (page : Nat) (b : List Char) :
    formatPage page (("{page}").data ++ b)
      = (fun r => natDigits page ++ r) <$> formatPage page b := by
  show formatPage page ('{' :: 'p' :: 'a' :: 'g' :: 'e' :: '}' :: b) = _
  simp [formatPage]

theorem pageSegs_formatPage (page : Nat) :
    ∀ segs : List (List Char), (∀ s ∈ segs, braceFree s = true) →
      formatPage page (pageSegs segs) = Except.ok (pageSegsSub page segs) := by
  intro segs
  induction segs with
  | nil => intro _; rfl
  | cons s rest ih =>
    intro h
    cases rest with
    | nil =>
      show formatPage page s = Except.ok s
      exact formatPage_id_of_braceFree page s (h s (by simp))
    | cons t ts =>
      show formatPage page (s ++ (("{page}").data ++ pageSegs (t :: ts)))
        = Except.ok (s ++ (natDigits page ++ pageSegsSub page (t :: ts)))
      rw [formatPage_braceFree_append page s _ (h s (by simp)),
        formatPage_at_pat, ih (fun x hx => h x (by simp [hx]))]
      rfl

theorem pageSegs_contains (s t : List Char) (ts : List (List Char)) :
    containsL (("{page}").data) (pageSegs (s :: t :: ts)) = true := by
  show containsL _ (s ++ (("{page}").data ++ pageSegs (t :: ts))) = true
  exact containsL_of_split _ s _

/-- C7 counterexample: on a template already carrying a `page=`
parameter followed by further parameters, the code truncates everything
after the first `page=`, so the claimed in-place parameter replacement
output is not produced. -/
theorem claim_C7_counterexample :
    build_url ("https://e.com/s?page=1&sort=new") 3
        = Except.ok ("https://e.com/s?page=3") ∧
    ("https://e.com/s?page=3" : String) ≠ "https://e.com/s?page=3&sort=new" := by
  constructor
  · rfl
  · decide

/-- C7 (amended): when the template contains `{page}` and its brace
constructs are only `{page}` placeholders (the template splits into
brace-free segments joined by `{page}`), the built URL is the template
with every `{page}` substituted by the page number, while any other
brace construct makes the underlying `str.format` raise and the
exception propagate (shown on `x?{page}{q}`); otherwise, with a query
string and an existing `page=` parameter the template is truncated at
the first `page=` occurrence and `page=<n>` appended there (later
parameters are dropped); with a query string and no `page=`,
`&page=<n>` is appended; without a query string, `?page=<n>` is
appended. -/
theorem claim_C7_build_url :
    (∀ (segs : List (List Char)) (n : Nat),
      2 ≤ segs.length →
      (∀ s ∈ segs, braceFree s = true) →
      build_url (String.mk (pageSegs segs)) n
        = Except.ok (String.mk (pageSegsSub n segs))) ∧
    (∀ n : Nat, build_url ("x?{page}{q}") n = Except.error ()) ∧
    (∀ (tmpl : String) (n : Nat),
      containsL (("{page}").data) tmpl.data = false →
      containsL (['?']) tmpl.data = true →
      containsL (("page=").data) tmpl.data = true →
      ∃ post, tmpl.data
          = beforeFirstL (("page=").data) tmpl.data ++ (("page=").data ++ post) ∧
        build_url tmpl n
          = Except.ok (String.mk (beforeFirstL (("page=").data) tmpl.data ++
              ("page=").data ++ natDigits n))) ∧
    (∀ (tmpl : String) (n : Nat),
      containsL (("{page}").data) tmpl.data = false →
      containsL (['?']) tmpl.data = true →
      containsL (("page=").data) tmpl.data = false →
      build_url tmpl n = Except.ok (tmpl ++ "&page=" ++ natStr n)) ∧
    (∀ (tmpl : String) (n : Nat),
      containsL (("{page}").data) tmpl.data = false →
      containsL (['?']) tmpl.data = false →
      build_url tmpl n = Except.ok (tmpl ++ "?page=" ++ natStr n)) := by
  refine ⟨?_, ?_, ?_, ?_, ?_⟩
  · intro segs n hlen hbf
    cases segs with
    | nil => simp at hlen
    | cons s rest =>
      cases rest with
      | nil => simp at hlen
      | cons t ts =>
        unfold build_url
        rw [show (String.mk (pageSegs (s :: t :: ts))).data
          = pageSegs (s :: t :: ts) from rfl]
        rw [if_pos (pageSegs_contains s t ts),
          pageSegs_formatPage n (s :: t :: ts) hbf]
        rfl
  · intro n
    rfl
  · intro tmpl n h1 h2 h3
    obtain ⟨post, hpost⟩ := beforeFirstL_spec _ tmpl.data h3
    refine ⟨post, hpost, ?_⟩
    unfold build_url
    rw [if_neg (by rw [h1]; simp), if_pos (by rw [h2]), if_pos (by rw [h3])]
  · intro tmpl n h1 h2 h3
    unfold build_url
    rw [if_neg (by rw [h1]; simp), if_pos (by rw [h2]),
      if_neg (by rw [h3]; simp)]
    have hrhs : (tmpl ++ "&page=" ++ natStr n).data
        = tmpl.data ++ ("&page=").data ++ natDigits n := by
      simp [String.data_append, (show (natStr n).data = natDigits n from rfl)]
    exact congrArg Except.ok
      (calc String.mk (tmpl.data ++ ("&page=").data ++ natDigits n)
          = String.mk ((tmpl ++ "&page=" ++ natStr n).data) := by rw [hrhs]
        _ = tmpl ++ "&page=" ++ natStr n := rfl)
  · intro tmpl n h1 h2
    unfold build_url
    rw [if_neg (by rw [h1]; simp), if_neg (by rw [h2]; simp)]
    have hrhs : (tmpl ++ "?page=" ++ natStr n).data
        = tmpl.data ++ ("?page=").data ++ natDigits n := by
      simp [String.data_append, (show (natStr n).data = natDigits n from rfl)]
    exact congrArg Except.ok
      (calc String.mk (tmpl.data ++ ("?page=").data ++ natDigits n)
          = String.mk ((tmpl ++ "?page=" ++ natStr n).data) := by rw [hrhs]
        _ = tmpl ++ "?page=" ++ natStr n := rfl)

/-- Witness for C7: the multi-placeholder substitution branch on the
template `a?x={page}&y={page}`, and the three query-parameter branches
at concrete templates and page numbers. -/
theorem claim_C7_witness :
    build_url (String.mk (pageSegs [("a?x=").data, ("&y=").data, []])) 7
        = Except.ok (String.mk (pageSegsSub 7 [("a?x=").data, ("&y=").data, []])) ∧
    (∃ post, ("https://e.com/s?page=1&sort=new" : String).data
        = beforeFirstL (("page=").data)
            ("https://e.com/s?page=1&sort=new" : String).data ++
            (("page=").data ++ post) ∧
      build_url ("https://e.com/s?page=1&sort=new") 3
        = Except.ok (String.mk (beforeFirstL (("page=").data)
            ("https://e.com/s?page=1&sort=new" : String).data ++
            ("page=").data ++ natDigits 3))) ∧
    build_url ("https://e.com/s?q=py") 2
        = Except.ok ("https://e.com/s?q=py" ++ "&page=" ++ natStr 2) ∧
    build_url ("https://e.com/s") 4
        = Except.ok ("https://e.com/s" ++ "?page=" ++ natStr 4) :=
  ⟨claim_C7_build_url.1 [("a?x=").data, ("&y=").data, []] 7 (by decide)
      (by decide),
    claim_C7_build_url.2.2.1 ("https://e.com/s?page=1&sort=new") 3 (by decide)
      (by decide) (by decide),
    claim_C7_build_url.2.2.2.1 ("https://e.com/s?q=py") 2 (by decide)
      (by decide) (by decide),
    claim_C7_build_url.2.2.2.2 ("https://e.com/s") 4 (by decide) (by decide)⟩

/-- The preferred tabular field ordering of `_collect_fieldnames` in
`src/outputs/exporter.py`. -/
def preferredOrder : List String :=
  ["jobId", "title", "description", "createdAt", "jobType", "duration",
   "budget", "clientLocation", "clientPaymentVerification", "clientSpent",
   "clientReviews", "category", "skills"]

/-- First-seen-order deduplication of keys.  It models the `set` that
`_collect_fieldnames` builds (iteration order is irrelevant there
because membership is queried and the leftovers are sorted) and,
separately, the first-appearance column order `pandas.DataFrame` infers
from a list of dicts. -/
def dedupFirstAux (seen : List String) : List String → List String
  | [] => []
  | k :: ks =>
    if k ∈ seen then dedupFirstAux seen ks
    else k :: dedupFirstAux (k :: seen) ks

/-- The distinct elements of `l` in first-appearance order. -/
def dedupFirst (l : List String) : List String := dedupFirstAux [] l

/-- Insertion of a string into a sorted list (lexicographic order). -/
def insertStr (x : String) : List String → List String
  | [] => [x]
  | y :: ys => if x ≤ y then x :: y :: ys else y :: insertStr x ys

/-- Insertion sort modelling Python `sorted` on strings. -/
def sortStr : List String → List String
  | [] => []
  | x :: xs => insertStr x (sortStr xs)

/-- Loop of `_collect_fieldnames`: walk the preferred order, moving each
present field into the ordered prefix and removing it from the field
set. -/
def collectLoop : List String → List String → List String × List String
  | [], fields => ([], fields)
  | f :: rest, fields =>
    if f ∈ fields then
      let r := collectLoop rest (fields.erase f)
      (f :: r.1, r.2)
    else collectLoop rest fields

/-- Embeds `_collect_fieldnames` from `src/outputs/exporter.py` (the
column list `_export_csv` hands to `csv.DictWriter`): the union of the
records' keys, preferred fields first, remaining fields sorted.  A
record is abstracted to its key list in insertion order. -/
def collect_fieldnames (data : List (List String)) : List String :=
  (collectLoop preferredOrder (dedupFirst data.flatten)).1 ++
    sortStr (collectLoop preferredOrder (dedupFirst data.flatten)).2

/-- Column order of the spreadsheet `_export_excel` writes, modelled
from pandas' documented `DataFrame(list_of_dicts)` behavior: the keys in
first-appearance order across the records (the code never consults
`_collect_fieldnames` here). -/
def excelColumns (data : List (List String)) : List String :=
  dedupFirst data.flatten

/-- The four supported export format selectors. -/
def supportedFormats : List String := ["json", "csv", "excel", "xml"]

/-- Embeds `export` from `src/outputs/exporter.py` (`export` is a Lean
keyword, hence the name): reject an empty data set or an unsupported
(case-folded) format with a `ValueError`, else
dispatch and return the written file's path (file I/O abstracted away;
`_export_excel` writes `<stem>.xlsx`). -/
def exportRecords (outputDir : String) (data : List (List String))
    (fmt : String) (stem : String) : Except String String :=
  if data = [] then Except.error ("No data supplied for export.")
  else if !(supportedFormats.contains (pyLower fmt)) then
    Except.error ("Unsupported export format: " ++ fmt)
  else if pyLower fmt = "json" then
    Except.ok (outputDir ++ "/" ++ stem ++ ".json")
  else if pyLower fmt = "csv" then
    Except.ok (outputDir ++ "/" ++ stem ++ ".csv")
  else if pyLower fmt = "excel" then
    Except.ok (outputDir ++ "/" ++ stem ++ ".xlsx")
  else if pyLower fmt = "xml" then
    Except.ok (outputDir ++ "/" ++ stem ++ ".xml")
  else Except.error ("Unhandled export format: " ++ pyLower fmt)

theorem dedupFirstAux_nodup (l : List String) : ∀ seen : List String,
    (dedupFirstAux seen l).Nodup ∧ ∀ x ∈ dedupFirstAux seen l, x ∉ seen := by
  induction l with
  | nil => intro seen; exact ⟨List.nodup_nil, by simp [dedupFirstAux]⟩
  | cons k ks ih =>
    intro seen
    unfold dedupFirstAux
    by_cases hk : k ∈ seen
    · rw [if_pos hk]
      exact ih seen
    · rw [if_neg hk]
      obtain ⟨hnd, hnotin⟩ := ih (k :: seen)
      refine ⟨List.nodup_cons.mpr ⟨?_, hnd⟩, ?_⟩
      · intro hmem
        exact (hnotin k hmem) (List.mem_cons_self k seen)
      · intro x hx
        rcases List.mem_cons.mp hx with rfl | hx2
        · exact hk
        · intro hxs
          exact (hnotin x hx2) (List.mem_cons_of_mem k hxs)

theorem dedupFirst_nodup (l : List String) : (dedupFirst l).Nodup :=
  (dedupFirstAux_nodup l []).1

theorem collectLoop_eq (pref : List String) : ∀ fields : List String,
    pref.Nodup → fields.Nodup →
    collectLoop pref fields
      = (pref.filter (fun f => decide (f ∈ fields)),
         fields.filter (fun k => decide (k ∉ pref))) := by
  induction pref with
  | nil =>
    intro fields _ _
    simp [collectLoop]
  | cons f rest ih =>
    intro fields hpref hfields
    obtain ⟨hfnotin, hrest⟩ := List.nodup_cons.mp hpref
    unfold collectLoop
    by_cases hf : f ∈ fields
    · rw [if_pos hf]
      rw [ih (fields.erase f) hrest (hfields.erase f)]
      rw [List.filter_cons,
        if_pos (by simp [hf] : decide (f ∈ fields) = true), Prod.mk.injEq]
      constructor
      · congr 1
        apply List.filter_congr
        intro a ha
        have hane : a ≠ f := fun hx => hfnotin (hx ▸ ha)
        simp [List.Nodup.mem_erase_iff hfields, hane]
      · rw [List.Nodup.erase_eq_filter hfields f, List.filter_filter]
        apply List.filter_congr
        intro a _
        by_cases haf : a = f
        · simp [haf]
        · by_cases har : a ∈ rest
          · simp [haf, har]
          · simp [haf, har]
    · rw [if_neg hf]
      rw [ih fields hrest hfields, List.filter_cons,
        if_neg (by simp [hf] : ¬decide (f ∈ fields) = true), Prod.mk.injEq]
      constructor
      · rfl
      · apply List.filter_congr
        intro a ha
        have hane : a ≠ f := fun hx => hf (hx ▸ ha)
        simp [hane]

/-- C8 counterexample: for a record whose keys arrive as
`["title", "jobId"]`, the excel export's columns follow first-seen key
order (`pandas.DataFrame` inference), not the claimed preferred
ordering, which `_collect_fieldnames` would give as
`["jobId", "title"]` and which the code never passes to the excel
writer. -/
theorem claim_C8_counterexample :
    excelColumns [["title", "jobId"]] = ["title", "jobId"] ∧
    collect_fieldnames [["title", "jobId"]] = ["jobId", "title"] ∧
    (["title", "jobId"] : List String) ≠ ["jobId", "title"] := by
  refine ⟨by decide, by decide, by decide⟩

/-- C8 (amended): for every record list, the csv column order is the
preferred ordering restricted to the fields present followed by the
unrecognized fields sorted alphabetically; the excel column order
instead follows the first appearance of keys across the records, here
on a two-record example. -/
theorem claim_C8_fieldnames_order :
    (∀ data : List (List String),
      collect_fieldnames data
        = preferredOrder.filter (fun f => decide (f ∈ dedupFirst data.flatten)) ++
          sortStr ((dedupFirst data.flatten).filter
            (fun k => decide (k ∉ preferredOrder)))) ∧
    excelColumns [["title", "jobId"], ["budget", "title"]]
      = ["title", "jobId", "budget"] := by
  constructor
  · intro data
    unfold collect_fieldnames
    rw [collectLoop_eq preferredOrder (dedupFirst data.flatten) (by decide)
      (dedupFirst_nodup _)]
  · decide

theorem exportRecords_json (outputDir : String) (data : List (List String))
    (fmt stem : String) (hd : data ≠ []) (hf : pyLower fmt = "json") :
    exportRecords outputDir data fmt stem
      = Except.ok (outputDir ++ "/" ++ stem ++ ".json") := by
  unfold exportRecords
  rw [if_neg hd, if_neg (by rw [hf]; decide), if_pos hf]

theorem exportRecords_csv (outputDir : String) (data : List (List String))
    (fmt stem : String) (hd : data ≠ []) (hf : pyLower fmt = "csv") :
    exportRecords outputDir data fmt stem
      = Except.ok (outputDir ++ "/" ++ stem ++ ".csv") := by
  unfold exportRecords
  rw [if_neg hd, if_neg (by rw [hf]; decide), if_neg (by rw [hf]; decide),
    if_pos hf]

theorem exportRecords_excel (outputDir : String) (data : List (List String))
    (fmt stem : String) (hd : data ≠ []) (hf : pyLower fmt = "excel") :
    exportRecords outputDir data fmt stem
      = Except.ok (outputDir ++ "/" ++ stem ++ ".xlsx") := by
  unfold exportRecords
  rw [if_neg hd, if_neg (by rw [hf]; decide), if_neg (by rw [hf]; decide),
    if_neg (by rw [hf]; decide), if_pos hf]

theorem exportRecords_xml (outputDir : String) (data : List (List String))
    (fmt stem : String) (hd : data ≠ []) (hf : pyLower fmt = "xml") :
    exportRecords outputDir data fmt stem
      = Except.ok (outputDir ++ "/" ++ stem ++ ".xml") := by
  unfold exportRecords
  rw [if_neg hd, if_neg (by rw [hf]; decide), if_neg (by rw [hf]; decide),
    if_neg (by rw [hf]; decide), if_neg (by rw [hf]; decide), if_pos hf]

/-- C9: the export operation signals a configuration error exactly when
the data set is empty or the case-folded format selector is
unsupported; on a non-empty data set each of the four supported formats
succeeds and returns the written file's path. -/
theorem claim_C9_export_validation :
    (∀ (outputDir : String) (data : List (List String)) (fmt stem : String),
      (∃ e, exportRecords outputDir data fmt stem = Except.error e) ↔
        (data = [] ∨ supportedFormats.contains (pyLower fmt) = false)) ∧
    (∀ (outputDir : String) (data : List (List String)) (fmt stem : String),
      data ≠ [] →
      (pyLower fmt = "json" →
        exportRecords outputDir data fmt stem
          = Except.ok (outputDir ++ "/" ++ stem ++ ".json")) ∧
      (pyLower fmt = "csv" →
        exportRecords outputDir data fmt stem
          = Except.ok (outputDir ++ "/" ++ stem ++ ".csv")) ∧
      (pyLower fmt = "excel" →
        exportRecords outputDir data fmt stem
          = Except.ok (outputDir ++ "/" ++ stem ++ ".xlsx")) ∧
      (pyLower fmt = "xml" →
        exportRecords outputDir data fmt stem
          = Except.ok (outputDir ++ "/" ++ stem ++ ".xml"))) := by
  constructor
  · intro outputDir data fmt stem
    constructor
    · rintro ⟨e, he⟩
      by_cases hd : data = []
      · exact Or.inl hd
      · right
        by_cases hs : supportedFormats.contains (pyLower fmt) = true
        · exfalso
          have hmem : pyLower fmt ∈ supportedFormats := by simpa using hs
          simp only [supportedFormats, List.mem_cons, List.not_mem_nil,
            or_false] at hmem
          rcases hmem with h | h | h | h
          · rw [exportRecords_json outputDir data fmt stem hd h] at he
            simp at he
          · rw [exportRecords_csv outputDir data fmt stem hd h] at he
            simp at he
          · rw [exportRecords_excel outputDir data fmt stem hd h] at he
            simp at he
          · rw [exportRecords_xml outputDir data fmt stem hd h] at he
            simp at he
        · exact Bool.not_eq_true _ ▸ (by simpa using hs)
    · intro h
      by_cases hd : data = []
      · refine ⟨"No data supplied for export.", ?_⟩
        unfold exportRecords
        rw [if_pos hd]
      · rcases h with h | hs
        · exact absurd h hd
        · refine ⟨"Unsupported export format: " ++ fmt, ?_⟩
          unfold exportRecords
          rw [if_neg hd, if_pos (by rw [hs]; rfl)]
  · intro outputDir data fmt stem hd
    exact ⟨exportRecords_json outputDir data fmt stem hd,
      exportRecords_csv outputDir data fmt stem hd,
      exportRecords_excel outputDir data fmt stem hd,
      exportRecords_xml outputDir data fmt stem hd⟩

/-- Witness for C9: an empty data set raises, a non-empty one exported
as `"JSON"` (case-folded) returns the written file's path. -/
theorem claim_C9_witness :
    (∃ e, exportRecords ("out") ([] : List (List String)) ("csv") ("jobs")
      = Except.error e) ∧
    exportRecords ("out") [["jobId"]] ("JSON") ("jobs")
      = Except.ok ("out" ++ "/" ++ "jobs" ++ ".json") := by
  constructor
  · exact (claim_C9_export_validation.1 ("out") [] ("csv") ("jobs")).mpr
      (Or.inl rfl)
  · exact (claim_C9_export_validation.2 ("out") [["jobId"]] ("JSON") ("jobs")
      (by decide)).1 (by decide)
